import Mathlib

/-!
Verification of the obsid daily-note engine.

A shallow embedding of the two core components of the obsid CLI
(repository `DylanSatow/obsid`):

* the section merger (`AppendProjectEntry` and its helpers
  `findProjectsSection`, `findProjectInsertionPoint`, `formatProjectEntry`,
  `insertLines` from the obsidian package), which splices a level-3
  project entry into the `## Projects` section of a daily note, and

* the date-format inference engine (`DetectDateFormat`,
  `detectDateFormatFromFiles`, `resolveAmbiguousDateFormat`,
  `convertDateFormatToGo` from `pkg/obsidian/vault.go`), which classifies
  filename stems against a fixed catalog of date patterns.

Go strings are modelled as `List Char` (a `Line`), documents as
`List Line`.  Go's `map` iteration order is unspecified, so the two map
loops of `detectDateFormatFromFiles` (the per-stem pattern loop and the
final tally loop) are modelled by explicit order parameters, constrained
in the theorems to range over permutations of the source's catalog and
over exactly the keys the Go map would hold.
-/

set_option maxHeartbeats 1000000

abbrev Line := List Char

/-- Shorthand to write a Go string literal as a `List Char`. -/
def str (s : String) : Line := s.toList

/-- Go `strings.HasPrefix(l, p)`. -/
def goHasPfx (p l : Line) : Bool := List.isPrefixOf p l

/-- Go `strings.Split(l, sep)` for a one-character separator: splits at
every occurrence of `sep`; `n` separators yield `n + 1` (possibly empty)
parts, and the empty string yields `[[]]`. -/
def splitC (sep : Char) : Line → List Line
  | [] => [[]]
  | c :: rest =>
    if c = sep then [] :: splitC sep rest
    else
      match splitC sep rest with
      | [] => [[c]]
      | r :: rs => (c :: r) :: rs

/-- Index of the first element satisfying `cond`, if any. -/
def scanList (cond : Line → Bool) : List Line → Option Nat
  | [] => none
  | l :: rest => if cond l then some 0 else Option.map (· + 1) (scanList cond rest)

/-- First index `k ≥ i` with `cond lines[k]`, or `lines.length` if none.
This is the loop shape shared by `findProjectsSection`,
`findProjectInsertionPoint` and the end-of-entry scan in `insertLines`:
each is a forward scan returning the first index whose line satisfies a
prefix test, falling through to `len(lines)` (resp. `-1`). -/
def scanFrom (cond : Line → Bool) (lines : List Line) (i : Nat) : Nat :=
  match scanList cond (lines.drop i) with
  | some k => i + k
  | none => lines.length

/-- Go `findProjectsSection`: index of the first line with prefix
`"## Projects"` (`none` models Go's `-1`). -/
def findProjectsSection (lines : List Line) : Option Nat :=
  let i := scanFrom (fun l => goHasPfx (str "## Projects") l) lines 0
  if i < lines.length then some i else none

/-- The stop condition of Go `findProjectInsertionPoint`'s loop: an
existing-entry line (prefix `"### " + projectName`) or the next section
(prefix `"## "`). -/
def insCond (projectName : Line) (l : Line) : Bool :=
  goHasPfx (str "### " ++ projectName) l || goHasPfx (str "## ") l

/-- Go `findProjectInsertionPoint`: scan from `projectsIndex + 1` for an
existing entry of `projectName` (matched by the prefix
`"### " + projectName`) or the start of the next section (prefix
`"## "`); falls through to `len(lines)`. -/
def findProjectInsertionPoint (lines : List Line) (projectsIndex : Nat)
    (projectName : Line) : Nat :=
  scanFrom (insCond projectName) lines (projectsIndex + 1)

/-- The stop condition of the end-of-entry scan in Go `insertLines`: a
line with prefix `"### "` or `"## "`.  (A level-1 heading `"# ..."` has
neither prefix and does not stop the scan.) -/
def endCond (l : Line) : Bool :=
  goHasPfx (str "### ") l || goHasPfx (str "## ") l

/-- Go `insertLines`: if `lines[index]` starts an existing entry
(prefix `"### "`), replace `lines[index:endIndex]` by `newLines`, where
`endIndex` is the next index whose line has prefix `"### "` or `"## "`
(or `len(lines)`); otherwise splice `newLines` in at `index`. -/
def insertLines (lines : List Line) (index : Nat) (newLines : List Line) :
    List Line :=
  if index < lines.length && goHasPfx (str "### ") (lines.getD index []) then
    lines.take index ++ newLines ++ lines.drop (scanFrom endCond lines (index + 1))
  else
    lines.take index ++ newLines ++ lines.drop index

/-- Go `formatProjectEntry`: `fmt.Sprintf("### %s\n%s", projectName, content)`. -/
def formatProjectEntry (projectName content : Line) : Line :=
  str "### " ++ projectName ++ '\n' :: content

/-- The line-level core of Go `(*Vault).AppendProjectEntry` (file I/O
stripped): find or create the `## Projects` section, find the insertion
point, and splice in the entry lines
`strings.Split(formatProjectEntry(projectName, content), "\n")`.
When the section is absent, the Go code appends `"", "## Projects", ""`
and sets `projectsIndex` to `len(lines) - 1` (the index of the trailing
blank line). -/
def AppendProjectEntry (lines : List Line) (projectName content : Line) :
    List Line :=
  match findProjectsSection lines with
  | some projectsIndex =>
    insertLines lines (findProjectInsertionPoint lines projectsIndex projectName)
      (splitC '\n' (formatProjectEntry projectName content))
  | none =>
    let lines2 := lines ++ [[], str "## Projects", []]
    let projectsIndex := lines2.length - 1
    insertLines lines2 (findProjectInsertionPoint lines2 projectsIndex projectName)
      (splitC '\n' (formatProjectEntry projectName content))

/-- The start index of the line range that `AppendProjectEntry` splices
out of the original document, read off the same branches the Go code
takes: the index returned by `findProjectInsertionPoint` when the
`## Projects` section exists, and `len(lines)` (everything is appended
after the whole document) when the code has to create the section. -/
def mergeStart (lines : List Line) (projectName : Line) : Nat :=
  match findProjectsSection lines with
  | some projectsIndex => findProjectInsertionPoint lines projectsIndex projectName
  | none => lines.length

/-- The end index (exclusive) of the range `AppendProjectEntry` splices
out: the guard and the end-of-entry scan are exactly those of
`insertLines` (on the replace branch the range runs to the next
`"### "`/`"## "` line, otherwise it is empty). -/
def mergeEnd (lines : List Line) (projectName : Line) : Nat :=
  match findProjectsSection lines with
  | some projectsIndex =>
    let index := findProjectInsertionPoint lines projectsIndex projectName
    if index < lines.length && goHasPfx (str "### ") (lines.getD index []) then
      scanFrom endCond lines (index + 1)
    else index
  | none => lines.length

/-- The lines `AppendProjectEntry` puts in place of the spliced-out
range: the formatted entry lines, preceded by the fresh
`"", "## Projects", ""` preamble when the section had to be created. -/
def mergeMid (lines : List Line) (projectName content : Line) : List Line :=
  match findProjectsSection lines with
  | some _ => splitC '\n' (formatProjectEntry projectName content)
  | none =>
    [[], str "## Projects", []] ++ splitC '\n' (formatProjectEntry projectName content)

/-- `dropCR` of Go's `bufio.ScanLines`: strip one trailing `'\r'`. -/
def dropCR (l : Line) : Line :=
  if l.getLast? = some '\r' then l.dropLast else l

/-- Reading a file into lines with Go's `bufio.Scanner` (default
`ScanLines` split): tokens are the newline-separated lines without their
terminators; a final newline does not produce an extra empty token, and
the empty file has no tokens. -/
def scanLines (content : Line) : List Line :=
  if content = [] then []
  else
    let parts := splitC '\n' content
    (if content.getLast? = some '\n' then parts.dropLast else parts).map dropCR

/-- Go `strings.Join(lines, "\n")`. -/
def joinNl : List Line → Line
  | [] => []
  | [l] => l
  | l :: rest => l ++ '\n' :: joinNl rest

/-- The whole file-level round trip of `AppendProjectEntry`: scan the old
contents into lines, merge, and write back
`strings.Join(newLines, "\n")` (no terminating newline appended). -/
def mergeFile (content projectName body : Line) : Line :=
  joinNl (AppendProjectEntry (scanLines content) projectName body)

/-! ## Date rendering (`convertDateFormatToGo` and Go `time.Format`) -/

/-- Go `strings.ReplaceAll(l, pat, rep)` (for nonempty `pat`): replace
every non-overlapping occurrence of `pat`, left to right. -/
def replaceAll (l pat rep : List Char) : List Char :=
  match l with
  | [] => []
  | c :: rest =>
    if h : pat ≠ [] ∧ List.isPrefixOf pat (c :: rest) then
      rep ++ replaceAll ((c :: rest).drop pat.length) pat rep
    else
      c :: replaceAll rest pat rep
termination_by l.length
decreasing_by
  · have hpos : 0 < pat.length := List.length_pos.2 h.1
    simp
    omega
  · simp

/-- A calendar date as used by the daily-note naming code. -/
structure Date where
  year : Nat
  month : Nat
  day : Nat
deriving DecidableEq

def isLeapYear (y : Nat) : Bool :=
  (y % 4 = 0 && y % 100 ≠ 0) || y % 400 = 0

def daysInMonth (y m : Nat) : Nat :=
  match m with
  | 2 => if isLeapYear y then 29 else 28
  | 4 | 6 | 9 | 11 => 30
  | _ => 31

/-- A well-formed Gregorian calendar date in the four-digit-year range
rendered by Go's `2006` layout token. -/
def Date.Valid (dt : Date) : Prop :=
  1 ≤ dt.year ∧ dt.year ≤ 9999 ∧ 1 ≤ dt.month ∧ dt.month ≤ 12 ∧
    1 ≤ dt.day ∧ dt.day ≤ daysInMonth dt.year dt.month

instance (dt : Date) : Decidable dt.Valid := by
  unfold Date.Valid
  infer_instance

/-- Day of week by Zeller's congruence, numbered as Go's `time.Weekday`
(0 = Sunday … 6 = Saturday). -/
def weekdayOf (y m d : Nat) : Nat :=
  let Y := if m < 3 then y - 1 else y
  let M := if m < 3 then m + 12 else m
  let K := Y % 100
  let J := Y / 100
  (d + 13 * (M + 1) / 5 + K + K / 4 + J / 4 + 5 * J + 6) % 7

/-- English month names as printed by Go's `January` layout token. -/
def monthName (m : Nat) : Line :=
  match m with
  | 1 => str "January"
  | 2 => str "February"
  | 3 => str "March"
  | 4 => str "April"
  | 5 => str "May"
  | 6 => str "June"
  | 7 => str "July"
  | 8 => str "August"
  | 9 => str "September"
  | 10 => str "October"
  | 11 => str "November"
  | 12 => str "December"
  | _ => []

/-- English weekday names as printed by Go's `Monday` layout token,
indexed as `time.Weekday` (0 = Sunday). -/
def weekdayName (w : Nat) : Line :=
  match w with
  | 0 => str "Sunday"
  | 1 => str "Monday"
  | 2 => str "Tuesday"
  | 3 => str "Wednesday"
  | 4 => str "Thursday"
  | 5 => str "Friday"
  | 6 => str "Saturday"
  | _ => []

def monthNames : List Line :=
  [str "January", str "February", str "March", str "April", str "May",
   str "June", str "July", str "August", str "September", str "October",
   str "November", str "December"]

def weekdayNames : List Line :=
  [str "Sunday", str "Monday", str "Tuesday", str "Wednesday",
   str "Thursday", str "Friday", str "Saturday"]

/-- Go's `"01"`/`"02"` layout tokens: zero-padded two-digit rendering
(faithful for values below 100 — months and days always are). -/
def pad2 (n : Nat) : Line := [Nat.digitChar (n / 10 % 10), Nat.digitChar (n % 10)]

/-- Go's `"2006"` layout token: zero-padded four-digit year (faithful for
years up to 9999, the `Date.Valid` range). -/
def pad4 (n : Nat) : Line :=
  [Nat.digitChar (n / 1000 % 10), Nat.digitChar (n / 100 % 10),
   Nat.digitChar (n / 10 % 10), Nat.digitChar (n % 10)]

/-- Go `time.Time.Format` restricted to the layout tokens produced by
`convertDateFormatToGo` (`2006`, `01`, `02`, `06`, `Monday`, `January`;
everything else is a literal). -/
def goFormat (dt : Date) : List Char → List Char
  | '2' :: '0' :: '0' :: '6' :: rest => pad4 dt.year ++ goFormat dt rest
  | 'M' :: 'o' :: 'n' :: 'd' :: 'a' :: 'y' :: rest =>
    weekdayName (weekdayOf dt.year dt.month dt.day) ++ goFormat dt rest
  | 'J' :: 'a' :: 'n' :: 'u' :: 'a' :: 'r' :: 'y' :: rest =>
    monthName dt.month ++ goFormat dt rest
  | '0' :: '1' :: rest => pad2 dt.month ++ goFormat dt rest
  | '0' :: '2' :: rest => pad2 dt.day ++ goFormat dt rest
  | '0' :: '6' :: rest => pad2 (dt.year % 100) ++ goFormat dt rest
  | c :: rest => c :: goFormat dt rest
  | [] => []

/-- Go `convertDateFormatToGo` from `vault.go`: the explicit switch over
the known patterns, with the `ReplaceAll` chain as default. -/
def convertDateFormatToGo (format : Line) : Line :=
  if format = str "YYYY-MM-DD-dddd" then str "2006-01-02-Monday"
  else if format = str "YYYY-MM-DD" then str "2006-01-02"
  else if format = str "DD-MM-YYYY" then str "02-01-2006"
  else if format = str "MM-DD-YYYY" then str "01-02-2006"
  else if format = str "MM-DD-YY" then str "01-02-06"
  else if format = str "YYYY/MM/DD" then str "2006/01/02"
  else if format = str "MMMM DD, YYYY" then str "January 02, 2006"
  else if format = str "DD MMMM YYYY" then str "02 January 2006"
  else if format = str "YYYY-MM-DD dddd" then str "2006-01-02 Monday"
  else if format = str "YY-MM-DD" then str "06-01-02"
  else
    replaceAll (replaceAll (replaceAll (replaceAll (replaceAll (replaceAll
      format (str "YYYY") (str "2006")) (str "MM") (str "01"))
      (str "DD") (str "02")) (str "dddd") (str "Monday"))
      (str "MMMM") (str "January")) (str "YY") (str "06")

/-- `RenderFilename` without the `".md"` extension: the stem
`date.Format(convertDateFormatToGo(format))`. -/
def renderStem (format : Line) (dt : Date) : Line :=
  goFormat dt (convertDateFormatToGo format)

/-! ## Pattern matchers (the regexes of `detectDateFormatFromFiles`)

Each anchored regex is decided by splitting on its separator character;
this is exact because no character class of these regexes contains the
separator it is split on. -/

/-- `lo ≤ len ≤ hi` digits (`\d` is ASCII `[0-9]` in Go RE2). -/
def digitRun (lo hi : Nat) (l : Line) : Bool :=
  decide (lo ≤ l.length) && decide (l.length ≤ hi) && l.all Char.isDigit

/-- Go RE2 `\w`: `[0-9A-Za-z_]`. -/
def isWordChar (c : Char) : Bool := c.isAlphanum || c = '_'

/-- `\w+`. -/
def wordRun (l : Line) : Bool := !l.isEmpty && l.all isWordChar

def isUpperAlpha (c : Char) : Bool := 'A' ≤ c && c ≤ 'Z'

def isLowerAlpha (c : Char) : Bool := 'a' ≤ c && c ≤ 'z'

/-- `[A-Z][a-z]+`. -/
def monthWordRun (l : Line) : Bool :=
  match l with
  | [] => false
  | c :: rest => isUpperAlpha c && !rest.isEmpty && rest.all isLowerAlpha

/-- Regex for format YYYY-MM-DD-dddd. -/
def reYMDW (s : Line) : Bool :=
  match splitC '-' s with
  | [a, b, c, w] => digitRun 4 4 a && digitRun 2 2 b && digitRun 2 2 c && wordRun w
  | _ => false

/-- Regex for format YYYY-MM-DD. -/
def reYMD (s : Line) : Bool :=
  match splitC '-' s with
  | [a, b, c] => digitRun 4 4 a && digitRun 2 2 b && digitRun 2 2 c
  | _ => false

/-- Regex for format YYYY-MM-DD dddd. -/
def reYMDSpW (s : Line) : Bool :=
  match splitC ' ' s with
  | [dpart, w] => reYMD dpart && wordRun w
  | _ => false

/-- Regex for format YYYY/MM/DD. -/
def reYMDSlash (s : Line) : Bool :=
  match splitC '/' s with
  | [a, b, c] => digitRun 4 4 a && digitRun 2 2 b && digitRun 2 2 c
  | _ => false

/-- Regex for format MMMM DD, YYYY. -/
def reMonthDY (s : Line) : Bool :=
  match splitC ' ' s with
  | [mon, dcm, y] =>
    monthWordRun mon && decide (dcm.getLast? = some ',') &&
      digitRun 1 2 dcm.dropLast && digitRun 4 4 y
  | _ => false

/-- Regex for format DD MMMM YYYY. -/
def reDMonthY (s : Line) : Bool :=
  match splitC ' ' s with
  | [dd, mon, y] => digitRun 1 2 dd && monthWordRun mon && digitRun 4 4 y
  | _ => false

/-- Regex for format YY-MM-DD. -/
def reYYMMDD (s : Line) : Bool :=
  match splitC '-' s with
  | [a, b, c] => digitRun 2 2 a && digitRun 2 2 b && digitRun 2 2 c
  | _ => false

/-- Regex for format MM-DD-YY. -/
def reMMDDYY (s : Line) : Bool :=
  match splitC '-' s with
  | [a, b, c] => digitRun 1 2 a && digitRun 1 2 b && digitRun 2 2 c
  | _ => false

/-- The ambiguous generic shape: two 1-2 digit groups, then 4 digits. -/
def reAmbiguous (s : Line) : Bool :=
  match splitC '-' s with
  | [a, b, c] => digitRun 1 2 a && digitRun 1 2 b && digitRun 4 4 c
  | _ => false

/-- The eight catalog patterns of `detectDateFormatFromFiles`, one
constructor per entry of the Go `patterns` map. -/
inductive Pat where
  | ymdDashW
  | ymdSpaceW
  | ymd
  | ymdSlash
  | monthDY
  | dMonthY
  | yymmdd
  | mmddyy
deriving DecidableEq

def patRegexMatches : Pat → Line → Bool
  | .ymdDashW => reYMDW
  | .ymdSpaceW => reYMDSpW
  | .ymd => reYMD
  | .ymdSlash => reYMDSlash
  | .monthDY => reMonthDY
  | .dMonthY => reDMonthY
  | .yymmdd => reYYMMDD
  | .mmddyy => reMMDDYY

def patFormat : Pat → Line
  | .ymdDashW => str "YYYY-MM-DD-dddd"
  | .ymdSpaceW => str "YYYY-MM-DD dddd"
  | .ymd => str "YYYY-MM-DD"
  | .ymdSlash => str "YYYY/MM/DD"
  | .monthDY => str "MMMM DD, YYYY"
  | .dMonthY => str "DD MMMM YYYY"
  | .yymmdd => str "YY-MM-DD"
  | .mmddyy => str "MM-DD-YY"

/-- The pattern catalog in source-text order (the Go `patterns` map
literal); map iteration may visit it in any order. -/
def catalog : List Pat :=
  [.ymdDashW, .ymdSpaceW, .ymd, .ymdSlash, .monthDY, .dMonthY, .yymmdd, .mmddyy]

/-- Patterns whose rendered stems are matched by exactly one catalog
matcher: weekday-token or fixed-position 4-digit-year patterns.  The
2-digit-year patterns `YY-MM-DD`/`MM-DD-YY` overlap each other, and
`DD-MM-YYYY`/`MM-DD-YYYY` are the ambiguous generic shape. -/
def nonAmbiguousPats : List Pat :=
  [.ymdDashW, .ymdSpaceW, .ymd, .ymdSlash, .monthDY, .dMonthY]

/-! ## Format inference (`detectDateFormatFromFiles` and friends) -/

/-- The inner loop per stem: the first pattern (in the given map
iteration order) whose regex matches. -/
def firstPatMatch (order : List Pat) (s : Line) : Option Pat :=
  order.find? (fun p => patRegexMatches p s)

/-- Value of `patternCounts[fmt]` contributed by the per-stem loop:
each stem votes for the first pattern matching it, at most one vote. -/
def matchCount (order : List Pat) (stems : List Line) (fmt : Line) : Nat :=
  stems.countP (fun s => decide ((firstPatMatch order s).map patFormat = some fmt))

/-- The `ambiguousFiles` slice.  In the Go source the `matched := false`
flag is shadowed by the `if matched, _ := regexp.MatchString(...)` short
declaration inside the loop, so the outer flag is never set and every
stem matching the ambiguous shape lands here regardless of the pattern
loop; the model reproduces that. -/
def ambiguousFiles (stems : List Line) : List Line := stems.filter reAmbiguous

/-- `fmt.Sscanf(s, "%d", &n)` on the digit strings passed here: the value
of the leading digit run, `0` when there is none (scan error leaves the
variable at zero). -/
def leadingNat (l : Line) : Nat :=
  (l.takeWhile Char.isDigit).foldl (fun a c => 10 * a + (c.toNat - 48)) 0

/-- One iteration of `resolveAmbiguousDateFormat`'s loop: skip stems that
do not split into 3 dash-parts, otherwise bump the `ddmmCount` /
`mmddCount` accumulators when the first / second value exceeds 12. -/
def resolveStep (acc : Nat × Nat) (s : Line) : Nat × Nat :=
  let parts := splitC '-' s
  if parts.length ≠ 3 then acc
  else
    let firstInt := leadingNat (parts.getD 0 [])
    let secondInt := leadingNat (parts.getD 1 [])
    ((if firstInt > 12 then acc.1 + 1 else acc.1),
     (if secondInt > 12 then acc.2 + 1 else acc.2))

def resolveCounts (stems : List Line) : Nat × Nat :=
  stems.foldl resolveStep (0, 0)

/-- Go `resolveAmbiguousDateFormat`: DD-MM-YYYY when `ddmmCount` wins the
sub-vote, MM-DD-YYYY when `mmddCount` wins, MM-DD-YYYY on a tie. -/
def resolveAmbiguousDateFormat (stems : List Line) : Line :=
  let ddmmCount := (resolveCounts stems).1
  let mmddCount := (resolveCounts stems).2
  if ddmmCount > mmddCount then str "DD-MM-YYYY"
  else if mmddCount > ddmmCount then str "MM-DD-YYYY"
  else str "MM-DD-YYYY"

/-- The final value of `patternCounts[fmt]`: per-stem votes plus, when
the ambiguous set is nonempty, its whole size credited to the resolved
ambiguous format. -/
def totalCount (order : List Pat) (stems : List Line) (fmt : Line) : Nat :=
  matchCount order stems fmt +
    (if ambiguousFiles stems ≠ [] ∧
        fmt = resolveAmbiguousDateFormat (ambiguousFiles stems)
     then (ambiguousFiles stems).length else 0)

/-- A legitimate iteration sequence for the final loop over the
`patternCounts` map: its keys are exactly the formats with a positive
count, each visited once, in an arbitrary order. -/
def validTally (order : List Pat) (stems : List Line) (tally : List Line) : Prop :=
  tally.Nodup ∧ ∀ f, f ∈ tally ↔ 0 < totalCount order stems f

/-- The final loop of `detectDateFormatFromFiles`: start from
`maxCount = 0`, `bestFormat = "YYYY-MM-DD"`, take any strictly greater
count. -/
def bestFormat (order : List Pat) (stems : List Line) (tally : List Line) : Line :=
  (tally.foldl
    (fun acc f =>
      if totalCount order stems f > acc.2 then (f, totalCount order stems f) else acc)
    (str "YYYY-MM-DD", 0)).1

/-- Go `detectDateFormatFromFiles`, parameterized by the two map
iteration orders. -/
def detectDateFormatFromFiles (order : List Pat) (tally : List Line)
    (stems : List Line) : Line :=
  bestFormat order stems tally

/-- The decision core of Go `(*Vault).DetectDateFormat` (directory I/O
stripped): error (`none`) when the stem sample is empty, otherwise the
detected format. -/
def DetectDateFormat (order : List Pat) (tally : List Line)
    (stems : List Line) : Option Line :=
  if stems.isEmpty then none else some (detectDateFormatFromFiles order tally stems)

/-! ## Spec-side counting definitions (for the disambiguation claim) -/

/-- First numeric component of a dash-separated stem. -/
def firstComponent (s : Line) : Nat := leadingNat ((splitC '-' s).getD 0 [])

/-- Second numeric component of a dash-separated stem. -/
def secondComponent (s : Line) : Nat := leadingNat ((splitC '-' s).getD 1 [])

/-- Number of stems whose first component exceeds 12. -/
def ddEvidence (stems : List Line) : Nat :=
  stems.countP (fun s => decide (12 < firstComponent s))

/-- Number of stems whose second component exceeds 12. -/
def mmEvidence (stems : List Line) : Nat :=
  stems.countP (fun s => decide (12 < secondComponent s))

/-! ## Specification of the forward scan -/

theorem getD_drop_line (l : List Line) (i j : Nat) :
    (l.drop i).getD j [] = l.getD (i + j) [] := by
  by_cases h : i + j < l.length
  · rw [List.getD_eq_getElem _ _ (by simp; omega), List.getD_eq_getElem _ _ h]
    simp
  · rw [List.getD_eq_default _ _ (by simp; omega), List.getD_eq_default _ _ (by omega)]

theorem scanList_none (cond : Line → Bool) (L : List Line)
    (h : scanList cond L = none) : ∀ l ∈ L, cond l = false := by
  induction L with
  | nil => intro l hl; exact absurd hl (List.not_mem_nil l)
  | cons a rest ih =>
    rw [scanList] at h
    by_cases hc : cond a = true
    · simp [hc] at h
    · intro l hl
      rcases List.mem_cons.1 hl with rfl | hmem
      · simpa using hc
      · rw [if_neg (by simpa using hc)] at h
        exact ih (by simpa using h) l hmem

theorem scanList_some (cond : Line → Bool) (L : List Line) (k : Nat)
    (h : scanList cond L = some k) :
    k < L.length ∧ cond (L.getD k []) = true ∧
      ∀ j, j < k → cond (L.getD j []) = false := by
  induction L generalizing k with
  | nil => simp [scanList] at h
  | cons a rest ih =>
    rw [scanList] at h
    by_cases hc : cond a = true
    · rw [if_pos hc] at h
      obtain rfl : k = 0 := by simpa using h.symm
      exact ⟨by simp, by simpa using hc, fun j hj => by omega⟩
    · rw [if_neg hc] at h
      rcases hrest : scanList cond rest with _ | k0
      · rw [hrest] at h; simp at h
      · rw [hrest] at h
        simp at h
        obtain rfl : k = k0 + 1 := h.symm
        have hr := ih k0 hrest
        refine ⟨by simp [List.length_cons]; omega, by simpa using hr.2.1, ?_⟩
        intro j hj
        match j with
        | 0 => simpa using hc
        | j + 1 => simpa using hr.2.2 j (by omega)

theorem scanFrom_eq_of_some (cond : Line → Bool) (lines : List Line) (i k : Nat)
    (h : scanList cond (lines.drop i) = some k) :
    scanFrom cond lines i = i + k := by
  unfold scanFrom
  rw [h]

theorem scanFrom_eq_of_none (cond : Line → Bool) (lines : List Line) (i : Nat)
    (h : scanList cond (lines.drop i) = none) :
    scanFrom cond lines i = lines.length := by
  unfold scanFrom
  rw [h]

theorem scanFrom_le_length (cond : Line → Bool) (lines : List Line) (i : Nat) :
    scanFrom cond lines i ≤ lines.length := by
  rcases h : scanList cond (lines.drop i) with _ | k
  · rw [scanFrom_eq_of_none cond lines i h]
  · rw [scanFrom_eq_of_some cond lines i k h]
    have := (scanList_some cond _ k h).1
    simp at this
    omega

theorem le_scanFrom (cond : Line → Bool) (lines : List Line) (i : Nat)
    (h : i ≤ lines.length) : i ≤ scanFrom cond lines i := by
  rcases hs : scanList cond (lines.drop i) with _ | k
  · rw [scanFrom_eq_of_none cond lines i hs]
    exact h
  · rw [scanFrom_eq_of_some cond lines i k hs]
    omega

theorem scanFrom_not (cond : Line → Bool) (lines : List Line) (i k : Nat)
    (h1 : i ≤ k) (h2 : k < scanFrom cond lines i) :
    cond (lines.getD k []) = false := by
  rcases hs : scanList cond (lines.drop i) with _ | k0
  · rw [scanFrom_eq_of_none cond lines i hs] at h2
    have hmem : lines.getD k [] ∈ lines.drop i := by
      have hlt : k - i < (lines.drop i).length := by simp; omega
      have heq : (lines.drop i).getD (k - i) [] = lines.getD k [] := by
        rw [getD_drop_line]
        congr 1
        omega
      rw [← heq, List.getD_eq_getElem _ _ hlt]
      exact List.getElem_mem hlt
    exact scanList_none cond _ hs _ hmem
  · rw [scanFrom_eq_of_some cond lines i k0 hs] at h2
    have hspec := scanList_some cond _ k0 hs
    have hj : cond ((lines.drop i).getD (k - i) []) = false := hspec.2.2 (k - i) (by omega)
    rw [getD_drop_line] at hj
    have heq : i + (k - i) = k := by omega
    rw [heq] at hj
    exact hj

theorem scanFrom_cond (cond : Line → Bool) (lines : List Line) (i : Nat)
    (h : scanFrom cond lines i < lines.length) :
    cond (lines.getD (scanFrom cond lines i) []) = true := by
  rcases hs : scanList cond (lines.drop i) with _ | k0
  · rw [scanFrom_eq_of_none cond lines i hs] at h
    omega
  · rw [scanFrom_eq_of_some cond lines i k0 hs] at h ⊢
    have hspec := scanList_some cond _ k0 hs
    have := hspec.2.1
    rw [getD_drop_line] at this
    exact this

theorem scanFrom_intro (cond : Line → Bool) (lines : List Line) (i j : Nat)
    (hij : i ≤ j) (hjlen : j ≤ lines.length)
    (hmin : ∀ k, i ≤ k → k < j → cond (lines.getD k []) = false)
    (hj : j = lines.length ∨ cond (lines.getD j []) = true) :
    scanFrom cond lines i = j := by
  rcases Nat.lt_trichotomy (scanFrom cond lines i) j with hlt | heq | hgt
  · exfalso
    have h1 : i ≤ scanFrom cond lines i := le_scanFrom cond lines i (le_trans hij hjlen)
    have h2 : scanFrom cond lines i < lines.length := lt_of_lt_of_le hlt hjlen
    have := scanFrom_cond cond lines i h2
    rw [hmin _ h1 hlt] at this
    exact Bool.false_ne_true this
  · exact heq
  · exfalso
    rcases hj with rfl | hcond
    · exact absurd (scanFrom_le_length cond lines i) (by omega)
    · have := scanFrom_not cond lines i j hij hgt
      rw [hcond] at this
      exact absurd this (by simp)

/-! ## Prefix and split helpers -/

theorem goHasPfx_iff (p l : Line) : goHasPfx p l = true ↔ p <+: l := by
  unfold goHasPfx
  exact List.isPrefixOf_iff_prefix

theorem goHasPfx_append_self (p rest : Line) : goHasPfx p (p ++ rest) = true := by
  rw [goHasPfx_iff]
  exact ⟨rest, rfl⟩

theorem goHasPfx_of_append_left (a b l : Line)
    (h : goHasPfx (a ++ b) l = true) : goHasPfx a l = true := by
  rw [goHasPfx_iff] at h ⊢
  exact List.IsPrefix.trans ⟨b, rfl⟩ h

theorem goHasPfx_append_cancel (a b c : Line) :
    goHasPfx (a ++ b) (a ++ c) = goHasPfx b c := by
  induction a with
  | nil => rfl
  | cons x xs ih => simp [goHasPfx, List.isPrefixOf] at ih ⊢; exact ih

theorem not_pfx2_of_pfx3 (l : Line) (h3 : goHasPfx (str "### ") l = true) :
    goHasPfx (str "## ") l = false := by
  rw [goHasPfx_iff] at h3
  rcases h3 with ⟨t, ht⟩
  subst ht
  by_contra hcon
  rw [Bool.not_eq_false, goHasPfx_iff] at hcon
  rcases hcon with ⟨t2, ht2⟩
  have h := congrArg (fun l : Line => l.get? 2) ht2
  simp [str] at h

theorem splitC_sep_out (sep : Char) (xs ys : Line) (h : sep ∉ xs) :
    splitC sep (xs ++ sep :: ys) = xs :: splitC sep ys := by
  induction xs with
  | nil => simp [splitC]
  | cons c rest ih =>
    have hc : ¬ c = sep := fun hcc => h (hcc ▸ List.mem_cons_self c rest)
    have hrest : sep ∉ rest := fun hm => h (List.mem_cons_of_mem c hm)
    rw [List.cons_append, splitC]
    simp only [if_neg hc, ih hrest]

theorem splitC_no_sep (sep : Char) (l : Line) (h : sep ∉ l) :
    splitC sep l = [l] := by
  induction l with
  | nil => rfl
  | cons c rest ih =>
    have hc : ¬ c = sep := fun hcc => h (hcc ▸ List.mem_cons_self c rest)
    have hrest : sep ∉ rest := fun hm => h (List.mem_cons_of_mem c hm)
    rw [splitC]
    simp only [if_neg hc, ih hrest]

theorem splitC_parts_sep_not_mem (sep : Char) (l : Line) :
    ∀ p ∈ splitC sep l, sep ∉ p := by
  induction l with
  | nil =>
    intro p hp
    simp [splitC] at hp
    simp [hp]
  | cons c rest ih =>
    intro p hp
    rw [splitC] at hp
    by_cases hc : c = sep
    · rw [if_pos hc] at hp
      rcases List.mem_cons.1 hp with rfl | hmem
      · simp
      · exact ih p hmem
    · rw [if_neg hc] at hp
      rcases hsp : splitC sep rest with _ | ⟨r, rs⟩
      · rw [hsp] at hp
        rcases List.mem_cons.1 hp with rfl | hmem
        · intro hm
          rcases List.mem_cons.1 hm with rfl | hmem2
          · exact hc rfl
          · exact absurd hmem2 (List.not_mem_nil sep)
        · exact absurd hmem (List.not_mem_nil p)
      · rw [hsp] at hp
        rcases List.mem_cons.1 hp with rfl | hmem
        · intro hm
          rcases List.mem_cons.1 hm with rfl | hmem2
          · exact hc rfl
          · exact ih r (hsp ▸ List.mem_cons_self r rs) hmem2
        · exact ih p (hsp ▸ List.mem_cons_of_mem r hmem)

theorem splitC_ne_nil (sep : Char) (l : Line) : splitC sep l ≠ [] := by
  induction l with
  | nil => simp [splitC]
  | cons c rest ih =>
    rw [splitC]
    by_cases hc : c = sep
    · simp [if_pos hc]
    · rw [if_neg hc]
      rcases hsp : splitC sep rest with _ | ⟨r, rs⟩ <;> simp

/-! ## Splice access helpers -/

theorem splice_getD_left (A B C : List Line) (k : Nat) (h : k < A.length) :
    (A ++ B ++ C).getD k [] = A.getD k [] := by
  rw [List.append_assoc, List.getD_append _ _ _ _ h]

theorem splice_getD_mid (A B C : List Line) (j : Nat) (h : j < B.length) :
    (A ++ B ++ C).getD (A.length + j) [] = B.getD j [] := by
  rw [List.append_assoc, List.getD_append_right _ _ _ _ (by omega)]
  simp only [Nat.add_sub_cancel_left]
  rw [List.getD_append _ _ _ _ h]

theorem splice_getD_right (A B C : List Line) (j : Nat) :
    (A ++ B ++ C).getD (A.length + B.length + j) [] = C.getD j [] := by
  rw [List.append_assoc, List.getD_append_right _ _ _ _ (by omega),
    List.getD_append_right _ _ _ _ (by omega)]
  congr 1
  omega

theorem splice_take (A B C : List Line) : (A ++ B ++ C).take A.length = A := by
  rw [List.append_assoc]
  exact List.take_left A (B ++ C)

theorem splice_drop (A B C : List Line) :
    (A ++ B ++ C).drop (A.length + B.length) = C := by
  rw [← List.length_append]
  exact List.drop_left (A ++ B) C

theorem splice_length (A B C : List Line) :
    (A ++ B ++ C).length = A.length + B.length + C.length := by
  simp [Nat.add_assoc]

theorem segment_decomp (l : List Line) (j e : Nat) (hje : j ≤ e) :
    l = l.take j ++ (l.drop j).take (e - j) ++ l.drop e := by
  conv_lhs => rw [← List.take_append_drop j l]
  rw [List.append_assoc]
  congr 1
  conv_lhs => rw [← List.take_append_drop (e - j) (l.drop j)]
  congr 1
  rw [List.drop_drop]
  congr 1
  omega

/-! ## Entry lines -/

theorem entryLines_eq (t body : Line) (ht : '\n' ∉ t) :
    splitC '\n' (formatProjectEntry t body) =
      (str "### " ++ t) :: splitC '\n' body := by
  unfold formatProjectEntry
  apply splitC_sep_out
  intro hmem
  rcases List.mem_append.1 hmem with h1 | h2
  · exact absurd h1 (by decide)
  · exact ht h2

theorem goHasPfx_self (p : Line) : goHasPfx p p = true := by
  rw [goHasPfx_iff]

theorem entry_head_pfx (t : Line) :
    goHasPfx (str "### " ++ t) (str "### " ++ t) = true := goHasPfx_self _

theorem entry_head_pfx3 (t : Line) :
    goHasPfx (str "### ") (str "### " ++ t) = true := goHasPfx_append_self _ _

/-! ## Branch analysis of AppendProjectEntry -/

theorem findProjectsSection_eq_some (lines : List Line) (p : Nat)
    (h : findProjectsSection lines = some p) :
    p < lines.length ∧ goHasPfx (str "## Projects") (lines.getD p []) = true ∧
      ∀ k, k < p → goHasPfx (str "## Projects") (lines.getD k []) = false := by
  unfold findProjectsSection at h
  by_cases hlt : scanFrom (fun l => goHasPfx (str "## Projects") l) lines 0 < lines.length
  · simp only [if_pos hlt, Option.some.injEq] at h
    subst h
    exact ⟨hlt, scanFrom_cond _ lines 0 hlt,
      fun k hk => scanFrom_not _ lines 0 k (Nat.zero_le k) hk⟩
  · simp [if_neg hlt] at h

theorem findProjectsSection_eq_none (lines : List Line)
    (h : findProjectsSection lines = none) :
    ∀ k, k < lines.length → goHasPfx (str "## Projects") (lines.getD k []) = false := by
  unfold findProjectsSection at h
  by_cases hlt : scanFrom (fun l => goHasPfx (str "## Projects") l) lines 0 < lines.length
  · simp [if_pos hlt] at h
  · intro k hk
    have hlen : scanFrom (fun l => goHasPfx (str "## Projects") l) lines 0 = lines.length := by
      have := scanFrom_le_length (fun l => goHasPfx (str "## Projects") l) lines 0
      omega
    have hk2 : k < scanFrom (fun l => goHasPfx (str "## Projects") l) lines 0 := by
      rw [hlen]
      exact hk
    exact scanFrom_not _ lines 0 k (Nat.zero_le k) hk2

theorem findProjectsSection_intro (lines : List Line) (p : Nat)
    (hp : p < lines.length)
    (hcond : goHasPfx (str "## Projects") (lines.getD p []) = true)
    (hmin : ∀ k, k < p → goHasPfx (str "## Projects") (lines.getD k []) = false) :
    findProjectsSection lines = some p := by
  unfold findProjectsSection
  have hscan : scanFrom (fun l => goHasPfx (str "## Projects") l) lines 0 = p :=
    scanFrom_intro _ lines 0 p (Nat.zero_le p) (le_of_lt hp)
      (fun k _ hk => hmin k hk) (Or.inr hcond)
  rw [hscan, if_pos hp]

theorem insertLines_replace (lines : List Line) (index : Nat) (newLines : List Line)
    (h1 : index < lines.length)
    (h2 : goHasPfx (str "### ") (lines.getD index []) = true) :
    insertLines lines index newLines =
      lines.take index ++ newLines ++
        lines.drop (scanFrom endCond lines (index + 1)) := by
  unfold insertLines
  have hc : (decide (index < lines.length) && goHasPfx (str "### ") (lines.getD index [])) = true := by
    rw [h2, decide_eq_true h1]
    rfl
  rw [if_pos hc]

theorem insertLines_insert (lines : List Line) (index : Nat) (newLines : List Line)
    (h : ¬ (index < lines.length ∧ goHasPfx (str "### ") (lines.getD index []) = true)) :
    insertLines lines index newLines =
      lines.take index ++ newLines ++ lines.drop index := by
  unfold insertLines
  rw [if_neg]
  intro hcon
  rcases Bool.and_eq_true_iff.1 hcon with ⟨ha, hb⟩
  exact h ⟨of_decide_eq_true ha, hb⟩

theorem findPIP_spec (lines : List Line) (t : Line) (p : Nat) :
    p + 1 ≤ findProjectInsertionPoint lines p t ∨
      findProjectInsertionPoint lines p t = lines.length := by
  by_cases h : p + 1 ≤ lines.length
  · exact Or.inl (le_scanFrom _ lines (p + 1) h)
  · right
    unfold findProjectInsertionPoint
    apply scanFrom_eq_of_none
    rw [List.drop_eq_nil_of_le (by omega)]
    rfl

theorem findPIP_not (lines : List Line) (t : Line) (p k : Nat) (h1 : p + 1 ≤ k)
    (h2 : k < findProjectInsertionPoint lines p t) :
    insCond t (lines.getD k []) = false :=
  scanFrom_not _ lines (p + 1) k h1 h2

theorem findPIP_cond (lines : List Line) (t : Line) (p : Nat)
    (h : findProjectInsertionPoint lines p t < lines.length) :
    insCond t (lines.getD (findProjectInsertionPoint lines p t) []) = true :=
  scanFrom_cond _ lines (p + 1) h

theorem findPIP_le_length (lines : List Line) (t : Line) (p : Nat) :
    findProjectInsertionPoint lines p t ≤ lines.length :=
  scanFrom_le_length _ lines (p + 1)

/-- At the index chosen by `findProjectInsertionPoint`, either the full
existing-entry prefix `"### " + t` matched (and then `insertLines` takes
its replace branch), or the next-section prefix `"## "` matched (and then
the `"### "` guard of `insertLines` is false). -/
theorem findPIP_dichotomy (lines : List Line) (t : Line) (p : Nat)
    (h : findProjectInsertionPoint lines p t < lines.length) :
    (goHasPfx (str "### " ++ t) (lines.getD (findProjectInsertionPoint lines p t) []) = true ∧
      goHasPfx (str "### ") (lines.getD (findProjectInsertionPoint lines p t) []) = true)
    ∨ (goHasPfx (str "### ") (lines.getD (findProjectInsertionPoint lines p t) []) = false ∧
      goHasPfx (str "## ") (lines.getD (findProjectInsertionPoint lines p t) []) = true) := by
  have hcond := findPIP_cond lines t p h
  unfold insCond at hcond
  rcases Bool.or_eq_true_iff.1 hcond with h1 | h2
  · exact Or.inl ⟨h1, goHasPfx_of_append_left (str "### ") t _ h1⟩
  · right
    refine ⟨?_, h2⟩
    by_cases h3 : goHasPfx (str "### ") (lines.getD (findProjectInsertionPoint lines p t) []) = true
    · rw [not_pfx2_of_pfx3 _ h3] at h2
      exact absurd h2 (by simp)
    · simpa using h3

theorem append_some_replace (lines : List Line) (t body : Line) (p : Nat)
    (hp : findProjectsSection lines = some p)
    (hipos : findProjectInsertionPoint lines p t < lines.length)
    (hpfx : goHasPfx (str "### ")
      (lines.getD (findProjectInsertionPoint lines p t) []) = true) :
    AppendProjectEntry lines t body =
      lines.take (findProjectInsertionPoint lines p t) ++
        splitC '\n' (formatProjectEntry t body) ++
        lines.drop (scanFrom endCond lines (findProjectInsertionPoint lines p t + 1)) := by
  unfold AppendProjectEntry
  rw [hp]
  exact insertLines_replace lines _ _ hipos hpfx

theorem append_some_insert (lines : List Line) (t body : Line) (p : Nat)
    (hp : findProjectsSection lines = some p)
    (hins : ¬ (findProjectInsertionPoint lines p t < lines.length ∧
      goHasPfx (str "### ") (lines.getD (findProjectInsertionPoint lines p t) []) = true)) :
    AppendProjectEntry lines t body =
      lines.take (findProjectInsertionPoint lines p t) ++
        splitC '\n' (formatProjectEntry t body) ++
        lines.drop (findProjectInsertionPoint lines p t) := by
  unfold AppendProjectEntry
  rw [hp]
  exact insertLines_insert lines _ _ hins

theorem append_none_eq (lines : List Line) (t body : Line)
    (hp : findProjectsSection lines = none) :
    AppendProjectEntry lines t body =
      (lines ++ [[], str "## Projects", []]) ++
        splitC '\n' (formatProjectEntry t body) := by
  unfold AppendProjectEntry
  rw [hp]
  have hpi : findProjectInsertionPoint (lines ++ [[], str "## Projects", []])
      ((lines ++ [[], str "## Projects", []]).length - 1) t =
      (lines ++ [[], str "## Projects", []]).length := by
    unfold findProjectInsertionPoint
    apply scanFrom_eq_of_none
    rw [List.drop_eq_nil_of_le (by simp)]
    rfl
  simp only []
  rw [hpi, insertLines_insert _ _ _ (by omega)]
  rw [List.take_length, List.drop_length, List.append_nil]

/-! ## Claim C2: how the existing entry is located -/

/-- C2 (amended): the merge locates the start of the existing entry by
PREFIX match, not exact title equality: `findProjectInsertionPoint`
returns the first index after the section heading whose line begins with
`"### " + entryTitle` or with `"## "` (or the document length), and every
line strictly between satisfies neither prefix.  A heading whose title
merely begins with `entryTitle` is therefore also selected. -/
theorem C2_insertion_point_prefix_match (lines : List Line) (t : Line) (p : Nat) :
    (findProjectInsertionPoint lines p t = lines.length ∨
      (p < findProjectInsertionPoint lines p t ∧
       findProjectInsertionPoint lines p t < lines.length ∧
       (goHasPfx (str "### " ++ t) (lines.getD (findProjectInsertionPoint lines p t) []) = true ∨
        goHasPfx (str "## ") (lines.getD (findProjectInsertionPoint lines p t) []) = true))) ∧
    ∀ k, p < k → k < findProjectInsertionPoint lines p t →
      goHasPfx (str "### " ++ t) (lines.getD k []) = false ∧
      goHasPfx (str "## ") (lines.getD k []) = false := by
  constructor
  · rcases findPIP_spec lines t p with h1 | h2
    · by_cases hlt : findProjectInsertionPoint lines p t < lines.length
      · right
        refine ⟨by omega, hlt, ?_⟩
        have := findPIP_cond lines t p hlt
        unfold insCond at this
        exact Bool.or_eq_true_iff.1 this
      · left
        have := findPIP_le_length lines t p
        omega
    · exact Or.inl h2
  · intro k hk1 hk2
    have := findPIP_not lines t p k (by omega) hk2
    unfold insCond at this
    exact Bool.or_eq_false_iff.1 this

/-- C2 counterexample: with entry title "Alpha", the line chosen as the
start of the existing entry's range is `"### Alphabet"`, a level-3
heading whose title `"Alphabet"` is not equal to `"Alpha"` but merely
begins with it — and the merge indeed replaces that entry. -/
theorem C2_counterexample :
    findProjectInsertionPoint
      [str "## Projects", str "### Alphabet", str "x"] 0 (str "Alpha") = 1 ∧
    [str "## Projects", str "### Alphabet", str "x"].getD 1 [] ≠
      str "### " ++ str "Alpha" ∧
    AppendProjectEntry [str "## Projects", str "### Alphabet", str "x"]
      (str "Alpha") (str "body") =
      [str "## Projects", str "### Alpha", str "body"] := by
  refine ⟨by decide, by decide, by decide⟩

theorem C2_witness :
    goHasPfx (str "### " ++ str "Alpha")
      ([str "## Projects", str "x", str "### Alpha"].getD 1 []) = false ∧
    goHasPfx (str "## ")
      ([str "## Projects", str "x", str "### Alpha"].getD 1 []) = false :=
  (C2_insertion_point_prefix_match
    [str "## Projects", str "x", str "### Alpha"] (str "Alpha") 0).2 1
    (by decide) (by decide)

/-! ## Claim C5: where the replaced range ends -/

/-- C5 (amended): when an existing entry is replaced, the replaced range
`lines[index : endIndex]` ends at the first line after the heading that
begins with `"### "` or `"## "` (level 3 or level 2), or at end of
document; a level-1 heading (a line beginning `"# "` only) does NOT
terminate the range and is consumed by the replacement. -/
theorem C5_replaced_range_end (lines : List Line) (index : Nat) (newLines : List Line)
    (h1 : index < lines.length)
    (h2 : goHasPfx (str "### ") (lines.getD index []) = true) :
    insertLines lines index newLines =
      lines.take index ++ newLines ++
        lines.drop (scanFrom endCond lines (index + 1)) ∧
    (scanFrom endCond lines (index + 1) = lines.length ∨
      (scanFrom endCond lines (index + 1) < lines.length ∧
        (goHasPfx (str "### ") (lines.getD (scanFrom endCond lines (index + 1)) []) = true ∨
         goHasPfx (str "## ") (lines.getD (scanFrom endCond lines (index + 1)) []) = true))) ∧
    ∀ k, index + 1 ≤ k → k < scanFrom endCond lines (index + 1) →
      goHasPfx (str "### ") (lines.getD k []) = false ∧
      goHasPfx (str "## ") (lines.getD k []) = false := by
  refine ⟨insertLines_replace lines index newLines h1 h2, ?_, ?_⟩
  · by_cases hlt : scanFrom endCond lines (index + 1) < lines.length
    · right
      refine ⟨hlt, ?_⟩
      have := scanFrom_cond endCond lines (index + 1) hlt
      unfold endCond at this
      exact Bool.or_eq_true_iff.1 this
    · left
      have := scanFrom_le_length endCond lines (index + 1)
      omega
  · intro k hk1 hk2
    have := scanFrom_not endCond lines (index + 1) k hk1 hk2
    unfold endCond at this
    exact Bool.or_eq_false_iff.1 this

/-- C5 counterexample: a level-1 heading line `"# Big"` after the entry
heading lies inside the replaced range — the merge deletes it, so the
range did not end at the level-1 heading. -/
theorem C5_counterexample :
    str "# Big" ∈
      ([str "## Projects", str "### Foo", str "x", str "# Big", str "y",
        str "## Next"] : List Line) ∧
    str "# Big" ∉ AppendProjectEntry
      [str "## Projects", str "### Foo", str "x", str "# Big", str "y", str "## Next"]
      (str "Foo") (str "z") := by
  refine ⟨by decide, by decide⟩

theorem C5_witness :
    goHasPfx (str "### ")
      ([str "## Projects", str "### Foo", str "x", str "## Next"].getD 2 []) = false ∧
    goHasPfx (str "## ")
      ([str "## Projects", str "### Foo", str "x", str "## Next"].getD 2 []) = false :=
  (C5_replaced_range_end
    [str "## Projects", str "### Foo", str "x", str "## Next"] 1
    [str "### Foo", str "z"] (by decide) (by decide)).2.2 2 (by decide) (by decide)

/-! ## Claim C4: the concrete replacement scenario -/

/-- C4 counterexample: on the spec's scenario document the merge does NOT
return the spec's expected line sequence — the blank line between
"old body" and "## Notes" is part of the replaced range and disappears. -/
theorem C4_counterexample :
    AppendProjectEntry
      [str "# Today", str "", str "## Projects", str "", str "### Alpha",
       str "old body", str "", str "## Notes"]
      (str "Alpha") (str "new body") ≠
      [str "# Today", str "", str "## Projects", str "", str "### Alpha",
       str "new body", str "", str "## Notes"] := by
  decide

/-- C4 (amended): merging "Alpha" with body "new body" into the scenario
document replaces everything from the `### Alpha` heading up to (not
including) the next `##`/`###` heading — including the entry's trailing
blank line — and leaves `## Notes` and everything around it untouched. -/
theorem C4_merge_scenario :
    AppendProjectEntry
      [str "# Today", str "", str "## Projects", str "", str "### Alpha",
       str "old body", str "", str "## Notes"]
      (str "Alpha") (str "new body") =
      [str "# Today", str "", str "## Projects", str "", str "### Alpha",
       str "new body", str "## Notes"] := by
  decide

/-! ## Claim C1: other entries are preserved -/

theorem take_decomp (l : List Line) (j e i : Nat) (h1 : j ≤ e) (h2 : e ≤ i) :
    l.take i = l.take j ++ (l.drop j).take (e - j) ++ (l.take i).drop e := by
  conv_lhs => rw [← List.take_append_drop e (l.take i)]
  congr 1
  rw [List.take_take, Nat.min_eq_left h2]
  have : e = j + (e - j) := by omega
  rw [this, List.take_add]
  congr 2
  omega

theorem drop_decomp (l : List Line) (i j e : Nat) (hij : i ≤ j) (hje : j ≤ e) :
    l.drop i = (l.drop i).take (j - i) ++ (l.drop j).take (e - j) ++ l.drop e := by
  conv_lhs => rw [← List.take_append_drop (j - i) (l.drop i)]
  rw [List.append_assoc]
  congr 1
  rw [List.drop_drop]
  have hj : i + (j - i) = j := by omega
  rw [hj]
  conv_lhs => rw [← List.take_append_drop (e - j) (l.drop j)]
  congr 1
  rw [List.drop_drop]
  congr 1
  omega

/-- `AppendProjectEntry` always splices exactly one contiguous range out
of the document: its result is `take (mergeStart) ++ mergeMid ++
drop (mergeEnd)` with `mergeStart ≤ mergeEnd ≤ length`, where the range
endpoints and the inserted middle are the ones the code computes. -/
theorem appendProjectEntry_splice (lines : List Line) (t body : Line) :
    mergeStart lines t ≤ mergeEnd lines t ∧
    mergeEnd lines t ≤ lines.length ∧
    AppendProjectEntry lines t body =
      lines.take (mergeStart lines t) ++ mergeMid lines t body ++
        lines.drop (mergeEnd lines t) := by
  rcases hsec : findProjectsSection lines with _ | p
  · have hs : mergeStart lines t = lines.length := by
      simp only [mergeStart, hsec]
    have he : mergeEnd lines t = lines.length := by
      simp only [mergeEnd, hsec]
    have hm : mergeMid lines t body =
        [[], str "## Projects", []] ++ splitC '\n' (formatProjectEntry t body) := by
      simp only [mergeMid, hsec]
    refine ⟨by omega, by omega, ?_⟩
    rw [hs, he, hm, append_none_eq lines t body hsec, List.take_length,
      List.drop_length, List.append_nil, List.append_assoc]
  · have hs : mergeStart lines t = findProjectInsertionPoint lines p t := by
      simp only [mergeStart, hsec]
    have hm : mergeMid lines t body = splitC '\n' (formatProjectEntry t body) := by
      simp only [mergeMid, hsec]
    have hilen : findProjectInsertionPoint lines p t ≤ lines.length :=
      findPIP_le_length lines t p
    by_cases hg : findProjectInsertionPoint lines p t < lines.length ∧
        goHasPfx (str "### ") (lines.getD (findProjectInsertionPoint lines p t) []) = true
    · have he : mergeEnd lines t =
          scanFrom endCond lines (findProjectInsertionPoint lines p t + 1) := by
        have hc : (decide (findProjectInsertionPoint lines p t < lines.length) &&
            goHasPfx (str "### ")
              (lines.getD (findProjectInsertionPoint lines p t) [])) = true := by
          rw [hg.2, decide_eq_true hg.1]
          rfl
        simp only [mergeEnd, hsec]
        rw [if_pos hc]
      refine ⟨?_, ?_, ?_⟩
      · rw [hs, he]
        have := le_scanFrom endCond lines (findProjectInsertionPoint lines p t + 1)
          (by omega)
        omega
      · rw [he]
        exact scanFrom_le_length endCond lines _
      · rw [hs, he, hm]
        exact append_some_replace lines t body p hsec hg.1 hg.2
    · have he : mergeEnd lines t = findProjectInsertionPoint lines p t := by
        simp only [mergeEnd, hsec]
        rw [if_neg]
        intro hcon
        rcases Bool.and_eq_true_iff.1 hcon with ⟨ha, hb⟩
        exact hg ⟨of_decide_eq_true ha, hb⟩
      refine ⟨by rw [hs, he], by rw [he]; exact hilen, ?_⟩
      rw [hs, he, hm]
      exact append_some_insert lines t body p hsec hg

/-- C1 (amended): merging title `t1` with any body never disturbs another
entry whose heading line is `"### " + t2`, provided `t1` is not a string
prefix of `t2` (the code matches entries by prefix, so that much is
necessary).  Concretely: (a) the merge replaces exactly the one
contiguous index range `[mergeStart, mergeEnd)` that the code computes —
the result is `take (mergeStart) ++ mergeMid ++ drop (mergeEnd)`, so
every line outside that range survives verbatim in order; (b) the other
entry's full line range, from its heading to the next `##`/`###` heading
(or end of document), is disjoint from the replaced range; and hence (c)
that whole range survives contiguously in the result. -/
theorem C1_other_entries_preserved (lines : List Line) (t1 t2 body : Line) (j : Nat)
    (hj : j < lines.length)
    (hline : lines.getD j [] = str "### " ++ t2)
    (hpfx : List.isPrefixOf t1 t2 = false) :
    (mergeStart lines t1 ≤ mergeEnd lines t1 ∧
      mergeEnd lines t1 ≤ lines.length ∧
      AppendProjectEntry lines t1 body =
        lines.take (mergeStart lines t1) ++ mergeMid lines t1 body ++
          lines.drop (mergeEnd lines t1)) ∧
    (scanFrom endCond lines (j + 1) ≤ mergeStart lines t1 ∨
      mergeEnd lines t1 ≤ j) ∧
    (∃ pre post, AppendProjectEntry lines t1 body =
      pre ++ (lines.drop j).take (scanFrom endCond lines (j + 1) - j) ++ post) := by
  obtain ⟨hse, helen, hsplice⟩ := appendProjectEntry_splice lines t1 body
  have hj3 : goHasPfx (str "### ") (lines.getD j []) = true := by
    rw [hline]
    exact entry_head_pfx3 t2
  have hjend : endCond (lines.getD j []) = true := by
    unfold endCond
    rw [hj3]
    rfl
  have hnot : goHasPfx (str "### " ++ t1) (lines.getD j []) = false := by
    rw [hline, goHasPfx_append_cancel]
    exact hpfx
  have hje2 : j + 1 ≤ scanFrom endCond lines (j + 1) :=
    le_scanFrom endCond lines (j + 1) (by omega)
  have he2len : scanFrom endCond lines (j + 1) ≤ lines.length :=
    scanFrom_le_length endCond lines (j + 1)
  have hdisj : scanFrom endCond lines (j + 1) ≤ mergeStart lines t1 ∨
      mergeEnd lines t1 ≤ j := by
    rcases hsec : findProjectsSection lines with _ | p
    · left
      have hs : mergeStart lines t1 = lines.length := by
        simp only [mergeStart, hsec]
      rw [hs]
      exact he2len
    · have hs : mergeStart lines t1 = findProjectInsertionPoint lines p t1 := by
        simp only [mergeStart, hsec]
      by_cases hlt : findProjectInsertionPoint lines p t1 < lines.length
      · rcases findPIP_dichotomy lines t1 p hlt with ⟨hfull, hpfx3⟩ | ⟨hpfx3, hpfx2⟩
        · -- replace branch: lines[i] begins the replaced entry
          have hji : j ≠ findProjectInsertionPoint lines p t1 := by
            intro heq
            have hx := hnot
            rw [heq] at hx
            rw [hx] at hfull
            exact absurd hfull (by simp)
          have he : mergeEnd lines t1 =
              scanFrom endCond lines (findProjectInsertionPoint lines p t1 + 1) := by
            have hc : (decide (findProjectInsertionPoint lines p t1 < lines.length) &&
                goHasPfx (str "### ")
                  (lines.getD (findProjectInsertionPoint lines p t1) [])) = true := by
              rw [hpfx3, decide_eq_true hlt]
              rfl
            simp only [mergeEnd, hsec]
            rw [if_pos hc]
          rcases Nat.lt_or_ge j (findProjectInsertionPoint lines p t1) with hjlt | hjge
          · -- the other entry lies strictly before the replaced one
            left
            rw [hs]
            have hiend : endCond
                (lines.getD (findProjectInsertionPoint lines p t1) []) = true := by
              unfold endCond
              rw [hpfx3]
              rfl
            by_contra hcon
            have := scanFrom_not endCond lines (j + 1)
              (findProjectInsertionPoint lines p t1) (by omega) (by omega)
            rw [hiend] at this
            exact absurd this (by simp)
          · -- the other entry lies at or after the end of the replaced range
            right
            rw [he]
            have hj_gt : findProjectInsertionPoint lines p t1 < j := by omega
            by_contra hcon
            have := scanFrom_not endCond lines
              (findProjectInsertionPoint lines p t1 + 1) j (by omega) (by omega)
            rw [hjend] at this
            exact absurd this (by simp)
        · -- insert branch: lines[i] is the next section heading
          have he : mergeEnd lines t1 = findProjectInsertionPoint lines p t1 := by
            simp only [mergeEnd, hsec]
            rw [if_neg]
            intro hcon
            rcases Bool.and_eq_true_iff.1 hcon with ⟨ha, hb⟩
            rw [hpfx3] at hb
            exact absurd hb (by simp)
          rcases Nat.lt_or_ge j (findProjectInsertionPoint lines p t1) with hjlt | hjge
          · left
            rw [hs]
            have hiend : endCond
                (lines.getD (findProjectInsertionPoint lines p t1) []) = true := by
              unfold endCond
              rw [hpfx2]
              simp
            by_contra hcon
            have := scanFrom_not endCond lines (j + 1)
              (findProjectInsertionPoint lines p t1) (by omega) (by omega)
            rw [hiend] at this
            exact absurd this (by simp)
          · right
            rw [he]
            omega
      · -- the scan fell through: the replaced range sits at end of document
        left
        have hieq : findProjectInsertionPoint lines p t1 = lines.length := by
          have := findPIP_le_length lines t1 p
          omega
        rw [hs, hieq]
        exact he2len
  refine ⟨⟨hse, helen, hsplice⟩, hdisj, ?_⟩
  rcases hdisj with hca | hcb
  · refine ⟨lines.take j,
      (lines.take (mergeStart lines t1)).drop (scanFrom endCond lines (j + 1)) ++
        mergeMid lines t1 body ++ lines.drop (mergeEnd lines t1), ?_⟩
    rw [hsplice]
    conv_lhs => rw [take_decomp lines j (scanFrom endCond lines (j + 1))
      (mergeStart lines t1) (by omega) hca]
    simp [List.append_assoc]
  · refine ⟨lines.take (mergeStart lines t1) ++ mergeMid lines t1 body ++
      (lines.drop (mergeEnd lines t1)).take (j - mergeEnd lines t1),
      lines.drop (scanFrom endCond lines (j + 1)), ?_⟩
    rw [hsplice]
    conv_lhs => rw [drop_decomp lines (mergeEnd lines t1) j
      (scanFrom endCond lines (j + 1)) hcb (by omega)]
    simp [List.append_assoc]

theorem C1_witness :
    ((mergeStart [str "## Projects", str "### Foo", str "a", str "### Bar", str "b"]
        (str "Bar") ≤
      mergeEnd [str "## Projects", str "### Foo", str "a", str "### Bar", str "b"]
        (str "Bar") ∧
      mergeEnd [str "## Projects", str "### Foo", str "a", str "### Bar", str "b"]
        (str "Bar") ≤
        ([str "## Projects", str "### Foo", str "a", str "### Bar", str "b"] :
          List Line).length ∧
      AppendProjectEntry
        [str "## Projects", str "### Foo", str "a", str "### Bar", str "b"]
        (str "Bar") (str "new") =
        ([str "## Projects", str "### Foo", str "a", str "### Bar", str "b"] :
          List Line).take
          (mergeStart
            [str "## Projects", str "### Foo", str "a", str "### Bar", str "b"]
            (str "Bar")) ++
        mergeMid [str "## Projects", str "### Foo", str "a", str "### Bar", str "b"]
          (str "Bar") (str "new") ++
        ([str "## Projects", str "### Foo", str "a", str "### Bar", str "b"] :
          List Line).drop
          (mergeEnd
            [str "## Projects", str "### Foo", str "a", str "### Bar", str "b"]
            (str "Bar"))) ∧
    (scanFrom endCond
        [str "## Projects", str "### Foo", str "a", str "### Bar", str "b"] (1 + 1) ≤
      mergeStart [str "## Projects", str "### Foo", str "a", str "### Bar", str "b"]
        (str "Bar") ∨
      mergeEnd [str "## Projects", str "### Foo", str "a", str "### Bar", str "b"]
        (str "Bar") ≤ 1) ∧
    (∃ pre post,
      AppendProjectEntry
        [str "## Projects", str "### Foo", str "a", str "### Bar", str "b"]
        (str "Bar") (str "new") =
        pre ++
          (([str "## Projects", str "### Foo", str "a", str "### Bar", str "b"] :
            List Line).drop 1).take
            (scanFrom endCond
              [str "## Projects", str "### Foo", str "a", str "### Bar", str "b"]
              (1 + 1) - 1) ++
          post)) :=
  C1_other_entries_preserved
    [str "## Projects", str "### Foo", str "a", str "### Bar", str "b"]
    (str "Bar") (str "Foo") (str "new") 1 (by decide) (by decide) (by decide)

/-- C1 counterexample: the titles "Alpha" and "AlphaX" are distinct, yet
merging "Alpha" destroys the other entry `### AlphaX` (and its body),
because the code matches the existing entry by the prefix
`"### Alpha"`. -/
theorem C1_counterexample :
    str "### AlphaX" ∈
      ([str "## Projects", str "### AlphaX", str "x", str "### Alpha", str "y"] :
        List Line) ∧
    str "Alpha" ≠ str "AlphaX" ∧
    str "### AlphaX" ∉ AppendProjectEntry
      [str "## Projects", str "### AlphaX", str "x", str "### Alpha", str "y"]
      (str "Alpha") (str "z") := by
  refine ⟨by decide, by decide, by decide⟩

/-! ## Claim C3: idempotence of the merge -/

theorem getD_take_line (l : List Line) (n k : Nat) (h : k < n) :
    (l.take n).getD k [] = l.getD k [] := by
  by_cases hk : k < l.length
  · rw [List.getD_eq_getElem _ _ (by simp; omega), List.getD_eq_getElem _ _ hk]
    apply List.getElem_take
  · rw [List.getD_eq_default _ _ (by simp; omega), List.getD_eq_default _ _ (by omega)]

theorem insCond_nil (t : Line) : insCond t [] = false := rfl

theorem secCond_nil : goHasPfx (str "## Projects") [] = false := rfl

theorem not_pfxProj_of_pfx3 (l : Line) (h3 : goHasPfx (str "### ") l = true) :
    goHasPfx (str "## Projects") l = false := by
  rw [goHasPfx_iff] at h3
  rcases h3 with ⟨u, hu⟩
  subst hu
  by_contra hcon
  rw [Bool.not_eq_false, goHasPfx_iff] at hcon
  rcases hcon with ⟨u2, hu2⟩
  have h := congrArg (fun l : Line => l.get? 2) hu2
  simp [str] at h

/-- Re-merging into a document of the shape
`A ++ entryLines ++ C` — where the `## Projects` heading is first found
inside `A` at `p`, no line of `A` after `p` stops the insertion-point
scan, and `C` is empty or starts with a `##`/`###` heading — finds
exactly the entry block and replaces it by itself. -/
theorem remerge (A C : List Line) (t body : Line) (p : Nat)
    (ht : '\n' ∉ t)
    (hb : ∀ l ∈ splitC '\n' body,
      goHasPfx (str "### ") l = false ∧ goHasPfx (str "## ") l = false)
    (hpk : p < A.length)
    (hpc : goHasPfx (str "## Projects") (A.getD p []) = true)
    (hpmin : ∀ k, k < p → goHasPfx (str "## Projects") (A.getD k []) = false)
    (hins : ∀ k, p + 1 ≤ k → k < A.length → insCond t (A.getD k []) = false)
    (hC : C ≠ [] → endCond (C.getD 0 []) = true) :
    AppendProjectEntry
      (A ++ splitC '\n' (formatProjectEntry t body) ++ C) t body =
      A ++ splitC '\n' (formatProjectEntry t body) ++ C := by
  have hE : splitC '\n' (formatProjectEntry t body) =
      (str "### " ++ t) :: splitC '\n' body := entryLines_eq t body ht
  set E := splitC '\n' (formatProjectEntry t body) with hEdef
  set r := A ++ E ++ C with hrdef
  have hElen : 1 ≤ E.length := by rw [hE]; simp
  have hrlen : r.length = A.length + E.length + C.length := splice_length A E C
  have hE0 : E.getD 0 [] = str "### " ++ t := by rw [hE]; rfl
  have hEj : ∀ j, 1 ≤ j → j < E.length →
      goHasPfx (str "### ") (E.getD j []) = false ∧
      goHasPfx (str "## ") (E.getD j []) = false := by
    intro j h1 h2
    have hjb : j - 1 < (splitC '\n' body).length := by
      rw [hE] at h2
      simp at h2
      omega
    have hmem : E.getD j [] ∈ splitC '\n' body := by
      rw [hE]
      have hj1 : j = (j - 1) + 1 := by omega
      rw [hj1, List.getD_cons_succ, List.getD_eq_getElem _ _ hjb]
      exact List.getElem_mem hjb
    exact hb _ hmem
  -- the re-found section index is p
  have hsec2 : findProjectsSection r = some p := by
    apply findProjectsSection_intro r p (by omega)
    · rw [splice_getD_left A E C p hpk]
      exact hpc
    · intro k hk
      rw [splice_getD_left A E C k (by omega)]
      exact hpmin k hk
  -- the re-found insertion point is A.length
  have hpip : findProjectInsertionPoint r p t = A.length := by
    unfold findProjectInsertionPoint
    apply scanFrom_intro (insCond t) r (p + 1) A.length (by omega) (by omega)
    · intro k hk1 hk2
      rw [splice_getD_left A E C k (by omega)]
      exact hins k hk1 hk2
    · right
      have : A.length = A.length + 0 := by omega
      rw [this, splice_getD_mid A E C 0 (by omega), hE0]
      unfold insCond
      rw [entry_head_pfx t]
      rfl
  have hpfx3 : goHasPfx (str "### ") (r.getD (findProjectInsertionPoint r p t) []) = true := by
    rw [hpip]
    have : A.length = A.length + 0 := by omega
    rw [this, splice_getD_mid A E C 0 (by omega), hE0]
    exact entry_head_pfx3 t
  have hlt2 : findProjectInsertionPoint r p t < r.length := by
    rw [hpip]
    omega
  rw [append_some_replace r t body p hsec2 hlt2 hpfx3]
  have hend : scanFrom endCond r (findProjectInsertionPoint r p t + 1) =
      A.length + E.length := by
    rw [hpip]
    apply scanFrom_intro endCond r (A.length + 1) (A.length + E.length)
      (by omega) (by omega)
    · intro k hk1 hk2
      have hkj : k = A.length + (k - A.length) := by omega
      rw [hkj, splice_getD_mid A E C (k - A.length) (by omega)]
      have := hEj (k - A.length) (by omega) (by omega)
      unfold endCond
      rw [this.1, this.2]
      rfl
    · by_cases hCnil : C = []
      · left
        rw [hrlen, hCnil]
        simp
      · right
        have h0 : A.length + E.length = A.length + E.length + 0 := by omega
        rw [h0, splice_getD_right A E C 0]
        exact hC hCnil
  rw [hend, hpip]
  have htake : r.take A.length = A := splice_take A E C
  have hdrop : r.drop (A.length + E.length) = C := splice_drop A E C
  rw [htake, hdrop]

/-- C3 (amended): the merge is idempotent for every document, provided
the title contains no newline and no body line begins with `"## "` or
`"### "` (otherwise the second merge mis-detects the end of the first
merge's entry): merging the same `(title, body)` twice equals merging it
once. -/
theorem C3_merge_idempotent (lines : List Line) (t body : Line)
    (ht : '\n' ∉ t)
    (hb : ∀ l ∈ splitC '\n' body,
      goHasPfx (str "### ") l = false ∧ goHasPfx (str "## ") l = false) :
    AppendProjectEntry (AppendProjectEntry lines t body) t body =
      AppendProjectEntry lines t body := by
  rcases hsec : findProjectsSection lines with _ | p
  · -- no Projects section: first merge appended section and entry at the end
    rw [append_none_eq lines t body hsec]
    have hXE : (lines ++ [[], str "## Projects", []]) ++
        splitC '\n' (formatProjectEntry t body) =
        (lines ++ [[], str "## Projects", []]) ++
          splitC '\n' (formatProjectEntry t body) ++ [] := by
      rw [List.append_nil]
    rw [hXE]
    apply remerge _ _ t body (lines.length + 1) ht hb
    · simp
    · rw [List.getD_append_right _ _ _ _ (by omega)]
      have h1 : lines.length + 1 - lines.length = 1 := by omega
      rw [h1]
      exact goHasPfx_self _
    · intro k hk
      by_cases hkl : k < lines.length
      · rw [List.getD_append _ _ _ _ hkl]
        exact findProjectsSection_eq_none lines hsec k hkl
      · have hk2 : k = lines.length := by omega
        rw [hk2, List.getD_append_right _ _ _ _ (by omega)]
        have h0 : lines.length - lines.length = 0 := by omega
        rw [h0]
        exact secCond_nil
    · intro k hk1 hk2
      have hk3 : k = lines.length + 2 := by
        simp at hk2
        omega
      rw [hk3, List.getD_append_right _ _ _ _ (by omega)]
      have h2 : lines.length + 2 - lines.length = 2 := by omega
      rw [h2]
      exact insCond_nil t
    · intro hcon
      exact absurd rfl hcon
  · have hp := findProjectsSection_eq_some lines p hsec
    have hile : findProjectInsertionPoint lines p t ≤ lines.length :=
      findPIP_le_length lines t p
    have hpi : p + 1 ≤ findProjectInsertionPoint lines p t := by
      rcases findPIP_spec lines t p with h1 | h2
      · exact h1
      · omega
    by_cases hguard : findProjectInsertionPoint lines p t < lines.length ∧
        goHasPfx (str "### ") (lines.getD (findProjectInsertionPoint lines p t) []) = true
    · -- first merge replaced an existing entry
      rw [append_some_replace lines t body p hsec hguard.1 hguard.2]
      apply remerge _ _ t body p ht hb
      · simp
        omega
      · rw [getD_take_line lines _ p (by omega)]
        exact hp.2.1
      · intro k hk
        rw [getD_take_line lines _ k (by omega)]
        exact hp.2.2 k hk
      · intro k hk1 hk2
        have hki : k < findProjectInsertionPoint lines p t := by
          simp at hk2
          omega
        rw [getD_take_line lines _ k hki]
        exact findPIP_not lines t p k hk1 hki
      · intro hcon
        have hlt : scanFrom endCond lines (findProjectInsertionPoint lines p t + 1) <
            lines.length := by
          by_contra hge
          exact hcon (List.drop_eq_nil_of_le (by omega))
        rw [getD_drop_line]
        have h0 : scanFrom endCond lines (findProjectInsertionPoint lines p t + 1) + 0 =
            scanFrom endCond lines (findProjectInsertionPoint lines p t + 1) := by omega
        rw [h0]
        exact scanFrom_cond endCond lines _ hlt
    · -- first merge inserted a fresh entry
      rw [append_some_insert lines t body p hsec hguard]
      apply remerge _ _ t body p ht hb
      · simp
        omega
      · rw [getD_take_line lines _ p (by omega)]
        exact hp.2.1
      · intro k hk
        rw [getD_take_line lines _ k (by omega)]
        exact hp.2.2 k hk
      · intro k hk1 hk2
        have hki : k < findProjectInsertionPoint lines p t := by
          simp at hk2
          omega
        rw [getD_take_line lines _ k hki]
        exact findPIP_not lines t p k hk1 hki
      · intro hcon
        have hlt : findProjectInsertionPoint lines p t < lines.length := by
          by_contra hge
          exact hcon (List.drop_eq_nil_of_le (by omega))
        rcases findPIP_dichotomy lines t p hlt with ⟨hfull, hpfx3⟩ | ⟨hpfx3, hpfx2⟩
        · exact absurd ⟨hlt, hpfx3⟩ hguard
        · rw [getD_drop_line]
          have h0 : findProjectInsertionPoint lines p t + 0 =
              findProjectInsertionPoint lines p t := by omega
          rw [h0]
          unfold endCond
          rw [hpfx2]
          simp

/-- C3 counterexample: with a body line that begins with `"## "`, the
second merge stops replacing at that body line and re-inserts the whole
entry, so merging twice is NOT the same as merging once. -/
theorem C3_counterexample :
    AppendProjectEntry
      (AppendProjectEntry [str "## Projects"] (str "Foo") (str "## Bar"))
      (str "Foo") (str "## Bar") ≠
      AppendProjectEntry [str "## Projects"] (str "Foo") (str "## Bar") := by
  decide

theorem C3_witness :
    ('\n' ∉ str "Foo" ∧
      ∀ l ∈ splitC '\n' (str "line1\nline2"),
        goHasPfx (str "### ") l = false ∧ goHasPfx (str "## ") l = false) ∧
    AppendProjectEntry
      (AppendProjectEntry
        [str "# Today", str "", str "## Projects", str "### Old", str "x"]
        (str "Foo") (str "line1\nline2"))
      (str "Foo") (str "line1\nline2") =
      AppendProjectEntry
        [str "# Today", str "", str "## Projects", str "### Old", str "x"]
        (str "Foo") (str "line1\nline2") :=
  ⟨⟨by decide, by decide⟩,
    C3_merge_idempotent
      [str "# Today", str "", str "## Projects", str "### Old", str "x"]
      (str "Foo") (str "line1\nline2") (by decide) (by decide)⟩

/-! ## Claim C10: trailing-newline behaviour of the file round trip -/

theorem getLast?_mem_line (l : Line) (c : Char) (h : l.getLast? = some c) :
    c ∈ l := by
  have hmem : c ∈ l.getLast? := by
    rw [Option.mem_def]
    exact h
  rcases List.mem_getLast?_eq_getLast hmem with ⟨hne, hc⟩
  rw [hc]
  exact List.getLast_mem hne

theorem dropCR_subset (l : Line) (c : Char) (h : c ∈ dropCR l) : c ∈ l := by
  unfold dropCR at h
  by_cases hr : l.getLast? = some '\r'
  · rw [if_pos hr] at h
    exact List.dropLast_subset l h
  · rw [if_neg hr] at h
    exact h

theorem scanLines_no_newline (content : Line) :
    ∀ l ∈ scanLines content, '\n' ∉ l := by
  unfold scanLines
  by_cases hc : content = []
  · rw [if_pos hc]
    intro l hl
    exact absurd hl (List.not_mem_nil l)
  · rw [if_neg hc]
    intro l hl
    rcases List.mem_map.1 hl with ⟨l0, hl0, rfl⟩
    intro hnl
    have hl0' : l0 ∈ splitC '\n' content := by
      by_cases hlast : content.getLast? = some '\n'
      · rw [if_pos hlast] at hl0
        exact List.dropLast_subset _ hl0
      · rw [if_neg hlast] at hl0
        exact hl0
    exact splitC_parts_sep_not_mem '\n' content l0 hl0' (dropCR_subset l0 '\n' hnl)

theorem insertLines_mem (lines : List Line) (index : Nat) (newLines : List Line) :
    ∀ l ∈ insertLines lines index newLines, l ∈ lines ∨ l ∈ newLines := by
  unfold insertLines
  split <;> intro l hl <;>
    rcases List.mem_append.1 hl with hl2 | hl2
  · rcases List.mem_append.1 hl2 with hl3 | hl3
    · exact Or.inl (List.take_subset _ _ hl3)
    · exact Or.inr hl3
  · exact Or.inl (List.drop_subset _ _ hl2)
  · rcases List.mem_append.1 hl2 with hl3 | hl3
    · exact Or.inl (List.take_subset _ _ hl3)
    · exact Or.inr hl3
  · exact Or.inl (List.drop_subset _ _ hl2)

theorem appendProjectEntry_mem (lines : List Line) (t body : Line) :
    ∀ l ∈ AppendProjectEntry lines t body,
      l ∈ lines ∨ l ∈ splitC '\n' (formatProjectEntry t body) ∨
        l = [] ∨ l = str "## Projects" := by
  unfold AppendProjectEntry
  rcases findProjectsSection lines with _ | p
  · intro l hl
    rcases insertLines_mem _ _ _ l hl with h1 | h2
    · rcases List.mem_append.1 h1 with h3 | h4
      · exact Or.inl h3
      · simp at h4
        rcases h4 with h5 | h5 | h5
        · exact Or.inr (Or.inr (Or.inl h5))
        · exact Or.inr (Or.inr (Or.inr h5))
        · exact Or.inr (Or.inr (Or.inl h5))
    · exact Or.inr (Or.inl h2)
  · intro l hl
    rcases insertLines_mem _ _ _ l hl with h1 | h2
    · exact Or.inl h1
    · exact Or.inr (Or.inl h2)

theorem joinNl_getLast (L : List Line) (hL : ∀ l ∈ L, '\n' ∉ l) :
    (joinNl L).getLast? = some '\n' ↔ 2 ≤ L.length ∧ L.getLast? = some [] := by
  induction L with
  | nil => simp [joinNl]
  | cons a rest ih =>
    rcases rest with _ | ⟨b, rest2⟩
    · constructor
      · intro h
        rw [show joinNl [a] = a from rfl] at h
        exact absurd (hL a (by simp)) (by
          intro hna
          exact hna (getLast?_mem_line a '\n' h))
      · intro h
        simp at h
    · have hjoin : joinNl (a :: b :: rest2) = a ++ '\n' :: joinNl (b :: rest2) := rfl
      rw [hjoin, List.getLast?_append_of_ne_nil a (by simp)]
      have hrest : ∀ l ∈ b :: rest2, '\n' ∉ l := fun l hl => hL l (List.mem_cons_of_mem a hl)
      rcases hX : joinNl (b :: rest2) with _ | ⟨c, X2⟩
      · -- the tail joins to nothing: only possible when rest2 = [] and b = []
        rcases rest2 with _ | ⟨d, rest3⟩
        · have hb : b = [] := hX
          subst hb
          simp
        · exact absurd hX (by
            rw [show joinNl (b :: d :: rest3) = b ++ '\n' :: joinNl (d :: rest3) from rfl]
            simp)
      · rw [List.getLast?_cons_cons, ← hX, ih hrest]
        constructor
        · intro h
          refine ⟨by simp, ?_⟩
          rw [List.getLast?_cons_cons]
          exact h.2
        · intro h
          rcases rest2 with _ | ⟨d, rest3⟩
          · have hb : b = [] := by
              have := h.2
              simp at this
              exact this
            subst hb
            exact absurd hX (by rw [show joinNl [([] : Line)] = [] from rfl]; simp)
          · refine ⟨by simp, ?_⟩
            have := h.2
            rw [List.getLast?_cons_cons] at this
            exact this

/-- C10 (amended): the merge reads the document as scanner lines (the
final line terminator produces no extra empty line) and joins the new
lines with `"\n"`, appending no terminator of its own; consequently a
file ending in a single newline is rewritten without it, but the output
DOES end with a newline exactly when the merged line sequence has at
least two lines and its last line is empty — e.g. when the original file
ended in a blank line (two newlines) outside the merged range. -/
theorem C10_trailing_newline (content t body : Line) :
    (mergeFile content t body).getLast? = some '\n' ↔
      2 ≤ (AppendProjectEntry (scanLines content) t body).length ∧
        (AppendProjectEntry (scanLines content) t body).getLast? = some ([] : Line) := by
  unfold mergeFile
  apply joinNl_getLast
  intro l hl
  rcases appendProjectEntry_mem (scanLines content) t body l hl with h1 | h2 | h3 | h4
  · exact scanLines_no_newline content l h1
  · exact splitC_parts_sep_not_mem '\n' _ l h2
  · rw [h3]
    exact List.not_mem_nil '\n'
  · rw [h4]
    decide

/-- C10 counterexample: a file ending in a blank line (two newlines),
with the merged entry elsewhere, is written back ending in a newline
character — and the trailing blank line was NOT dropped. -/
theorem C10_counterexample :
    (mergeFile (str "## Projects\n### Foo\nx\n## Notes\n\n")
      (str "Foo") (str "new")).getLast? = some '\n' ∧
    mergeFile (str "## Projects\n### Foo\nx\n## Notes\n\n") (str "Foo") (str "new") =
      str "## Projects\n### Foo\nnew\n## Notes\n" := by
  refine ⟨by decide, by decide⟩

/-! ## Claim C8: disambiguation of the generic numeric shape -/

theorem reAmbiguous_parts (s : Line) (h : reAmbiguous s = true) :
    (splitC '-' s).length = 3 := by
  unfold reAmbiguous at h
  split at h
  · rename_i heq
    rw [heq]
    rfl
  · simp at h

theorem resolveCounts_aux (stems : List Line)
    (h : ∀ s ∈ stems, (splitC '-' s).length = 3) :
    ∀ acc : Nat × Nat, stems.foldl resolveStep acc =
      (acc.1 + ddEvidence stems, acc.2 + mmEvidence stems) := by
  induction stems with
  | nil =>
    intro acc
    simp [ddEvidence, mmEvidence]
  | cons s rest ih =>
    intro acc
    have hs : (splitC '-' s).length = 3 := h s (List.mem_cons_self s rest)
    have hrest : ∀ s2 ∈ rest, (splitC '-' s2).length = 3 :=
      fun s2 hs2 => h s2 (List.mem_cons_of_mem s hs2)
    rw [List.foldl_cons, ih hrest]
    have hstep : resolveStep acc s =
        ((if 12 < firstComponent s then acc.1 + 1 else acc.1),
         (if 12 < secondComponent s then acc.2 + 1 else acc.2)) := by
      unfold resolveStep
      rw [if_neg (by omega)]
      rfl
    rw [hstep]
    unfold ddEvidence mmEvidence
    simp only [List.countP_cons]
    rw [Prod.mk.injEq]
    constructor
    · by_cases h1 : (12 : Nat) < firstComponent s <;> (simp [h1]; try omega)
    · by_cases h2 : (12 : Nat) < secondComponent s <;> (simp [h2]; try omega)

theorem resolveCounts_eq (stems : List Line)
    (h : ∀ s ∈ stems, (splitC '-' s).length = 3) :
    resolveCounts stems = (ddEvidence stems, mmEvidence stems) := by
  unfold resolveCounts
  rw [resolveCounts_aux stems h (0, 0), Prod.mk.injEq]
  constructor <;> omega

/-- C8: on a set-aside sample (stems matching the ambiguous
two-numbers-then-4-digit-year shape), disambiguation returns DD-MM-YYYY
exactly when strictly more stems have first component above 12 than have
second component above 12, and MM-DD-YYYY otherwise — including the tie
and the no-evidence case. -/
theorem C8_disambiguation (stems : List Line)
    (h : ∀ s ∈ stems, reAmbiguous s = true) :
    resolveAmbiguousDateFormat stems =
      if mmEvidence stems < ddEvidence stems then str "DD-MM-YYYY"
      else str "MM-DD-YYYY" := by
  have heq : resolveAmbiguousDateFormat stems =
      if ddEvidence stems > mmEvidence stems then str "DD-MM-YYYY"
      else if mmEvidence stems > ddEvidence stems then str "MM-DD-YYYY"
      else str "MM-DD-YYYY" := by
    unfold resolveAmbiguousDateFormat
    rw [resolveCounts_eq stems (fun s hs => reAmbiguous_parts s (h s hs))]
  rw [heq]
  by_cases h1 : mmEvidence stems < ddEvidence stems
  · rw [if_pos (show ddEvidence stems > mmEvidence stems from h1), if_pos h1]
  · rw [if_neg (show ¬ ddEvidence stems > mmEvidence stems from h1), if_neg h1]
    by_cases h2 : ddEvidence stems < mmEvidence stems
    · rw [if_pos (show mmEvidence stems > ddEvidence stems from h2)]
    · rw [if_neg (show ¬ mmEvidence stems > ddEvidence stems from h2)]

theorem C8_witness :
    (∀ s ∈ [str "15-07-2025", str "03-07-2025"], reAmbiguous s = true) ∧
    resolveAmbiguousDateFormat [str "15-07-2025", str "03-07-2025"] =
      (if mmEvidence [str "15-07-2025", str "03-07-2025"] <
          ddEvidence [str "15-07-2025", str "03-07-2025"]
       then str "DD-MM-YYYY" else str "MM-DD-YYYY") :=
  ⟨by decide, C8_disambiguation [str "15-07-2025", str "03-07-2025"] (by decide)⟩

/-! ## Claim C7: behaviour on empty and no-match samples -/

theorem totalCount_nomatch (order : List Pat) (stems : List Line) (f : Line)
    (h1 : ∀ s ∈ stems, firstPatMatch order s = none)
    (h2 : ∀ s ∈ stems, reAmbiguous s = false) :
    totalCount order stems f = 0 := by
  unfold totalCount
  have hamb : ambiguousFiles stems = [] := by
    unfold ambiguousFiles
    rw [List.filter_eq_nil_iff]
    intro s hs
    rw [h2 s hs]
    simp
  rw [hamb]
  have hmc : matchCount order stems f = 0 := by
    unfold matchCount
    rw [List.countP_eq_zero]
    intro s hs
    rw [h1 s hs]
    simp
  rw [hmc]
  simp

theorem validTally_nil_of_nomatch (order : List Pat) (stems : List Line)
    (h1 : ∀ s ∈ stems, firstPatMatch order s = none)
    (h2 : ∀ s ∈ stems, reAmbiguous s = false) :
    validTally order stems [] := by
  refine ⟨List.nodup_nil, fun f => ?_⟩
  rw [totalCount_nomatch order stems f h1 h2]
  simp

/-- C7 (amended): the inference errors exactly on the empty sample; a
non-empty sample in which no stem matches any catalog pattern nor the
ambiguous shape does NOT produce an error — the detector silently
returns the default fallback pattern YYYY-MM-DD. -/
theorem C7_error_exactly_on_empty (order : List Pat) (tally stems : List Line)
    (horder : List.Perm order catalog)
    (hnm : ∀ s ∈ stems,
      (∀ p ∈ catalog, patRegexMatches p s = false) ∧ reAmbiguous s = false)
    (htally : validTally order stems tally) :
    DetectDateFormat order tally [] = none ∧
    (stems ≠ [] → DetectDateFormat order tally stems = some (str "YYYY-MM-DD")) := by
  constructor
  · rfl
  · intro hne
    have h1 : ∀ s ∈ stems, firstPatMatch order s = none := by
      intro s hs
      unfold firstPatMatch
      rw [List.find?_eq_none]
      intro p hp
      rw [(hnm s hs).1 p (horder.mem_iff.1 hp)]
      simp
    have h2 : ∀ s ∈ stems, reAmbiguous s = false := fun s hs => (hnm s hs).2
    have htnil : tally = [] := by
      rw [List.eq_nil_iff_forall_not_mem]
      intro f hf
      have := (htally.2 f).1 hf
      rw [totalCount_nomatch order stems f h1 h2] at this
      omega
    unfold DetectDateFormat
    rw [if_neg (by simpa using hne), htnil]
    rfl

/-- C7 counterexample: the one-stem sample `["hello"]` matches nothing,
its tally is legitimately empty, and the detector returns the fallback
pattern instead of an error. -/
theorem C7_counterexample :
    validTally catalog [str "hello"] [] ∧
    DetectDateFormat catalog [] [str "hello"] = some (str "YYYY-MM-DD") :=
  ⟨validTally_nil_of_nomatch catalog [str "hello"] (by decide) (by decide),
    by decide⟩

theorem C7_witness :
    DetectDateFormat catalog [] [str "no-date-here"] = some (str "YYYY-MM-DD") :=
  (C7_error_exactly_on_empty catalog [] [str "no-date-here"]
    (List.Perm.refl catalog) (by decide)
    (validTally_nil_of_nomatch catalog [str "no-date-here"] (by decide) (by decide))).2
    (by decide)

/-! ## Claim C6: rendering facts -/

theorem digitChar_isDigit (n : Nat) (h : n < 10) :
    (Nat.digitChar n).isDigit = true := by
  interval_cases n <;> decide

theorem pad2_digits (n : Nat) : ∀ c ∈ pad2 n, c.isDigit = true := by
  intro c hc
  unfold pad2 at hc
  rcases List.mem_cons.1 hc with rfl | hc2
  · exact digitChar_isDigit _ (Nat.mod_lt _ (by norm_num))
  · rcases List.mem_cons.1 hc2 with rfl | hc3
    · exact digitChar_isDigit _ (Nat.mod_lt _ (by norm_num))
    · exact absurd hc3 (List.not_mem_nil c)

theorem pad4_digits (n : Nat) : ∀ c ∈ pad4 n, c.isDigit = true := by
  intro c hc
  unfold pad4 at hc
  simp at hc
  rcases hc with rfl | rfl | rfl | rfl <;>
    exact digitChar_isDigit _ (Nat.mod_lt _ (by norm_num))

theorem pad2_length (n : Nat) : (pad2 n).length = 2 := rfl

theorem pad4_length (n : Nat) : (pad4 n).length = 4 := rfl

theorem not_mem_pad2 (n : Nat) (c : Char) (h : c.isDigit = false) : c ∉ pad2 n := by
  intro hm
  rw [pad2_digits n c hm] at h
  exact absurd h (by simp)

theorem not_mem_pad4 (n : Nat) (c : Char) (h : c.isDigit = false) : c ∉ pad4 n := by
  intro hm
  rw [pad4_digits n c hm] at h
  exact absurd h (by simp)

theorem digitRun_pad2 (n lo hi : Nat) (h1 : lo ≤ 2) (h2 : 2 ≤ hi) :
    digitRun lo hi (pad2 n) = true := by
  unfold digitRun
  rw [pad2_length, decide_eq_true h1, decide_eq_true h2,
    List.all_eq_true.2 (pad2_digits n)]
  rfl

theorem digitRun_pad4 (n lo hi : Nat) (h1 : lo ≤ 4) (h2 : 4 ≤ hi) :
    digitRun lo hi (pad4 n) = true := by
  unfold digitRun
  rw [pad4_length, decide_eq_true h1, decide_eq_true h2,
    List.all_eq_true.2 (pad4_digits n)]
  rfl

theorem digitRun_false_len (lo hi : Nat) (l : Line)
    (h : l.length < lo ∨ hi < l.length) : digitRun lo hi l = false := by
  unfold digitRun
  rcases h with h | h
  · rw [decide_eq_false (by omega)]
    rfl
  · rw [decide_eq_false (show ¬ l.length ≤ hi by omega)]
    simp

theorem digitRun_false_digits (lo hi : Nat) (l : Line)
    (h : l.all Char.isDigit = false) : digitRun lo hi l = false := by
  unfold digitRun
  rw [h]
  simp

theorem weekdayOf_lt (y m d : Nat) : weekdayOf y m d < 7 := by
  unfold weekdayOf
  exact Nat.mod_lt _ (by norm_num)

theorem monthName_mem (m : Nat) (h1 : 1 ≤ m) (h2 : m ≤ 12) :
    monthName m ∈ monthNames := by
  interval_cases m <;> decide

theorem weekdayName_mem (w : Nat) (h : w < 7) : weekdayName w ∈ weekdayNames := by
  interval_cases w <;> decide

theorem monthNames_props : ∀ l ∈ monthNames,
    ' ' ∉ l ∧ '-' ∉ l ∧ '/' ∉ l ∧ monthWordRun l = true ∧
      l.all Char.isDigit = false ∧ decide (l.getLast? = some ',') = false ∧
      '\n' ∉ l := by
  decide

theorem weekdayNames_props : ∀ l ∈ weekdayNames,
    ' ' ∉ l ∧ '-' ∉ l ∧ '/' ∉ l ∧ wordRun l = true ∧ 1 ≤ l.length := by
  decide

theorem convert_ymdW : convertDateFormatToGo (str "YYYY-MM-DD-dddd") =
    str "2006-01-02-Monday" := by decide

theorem convert_ymdSpW : convertDateFormatToGo (str "YYYY-MM-DD dddd") =
    str "2006-01-02 Monday" := by decide

theorem convert_ymd : convertDateFormatToGo (str "YYYY-MM-DD") =
    str "2006-01-02" := by decide

theorem convert_ymdSlash : convertDateFormatToGo (str "YYYY/MM/DD") =
    str "2006/01/02" := by decide

theorem convert_monthDY : convertDateFormatToGo (str "MMMM DD, YYYY") =
    str "January 02, 2006" := by decide

theorem convert_dMonthY : convertDateFormatToGo (str "DD MMMM YYYY") =
    str "02 January 2006" := by decide

theorem render_ymdW (dt : Date) :
    renderStem (str "YYYY-MM-DD-dddd") dt =
      pad4 dt.year ++ '-' :: (pad2 dt.month ++ '-' :: (pad2 dt.day ++ '-' ::
        weekdayName (weekdayOf dt.year dt.month dt.day))) := by
  unfold renderStem
  rw [convert_ymdW]
  show pad4 dt.year ++ '-' :: (pad2 dt.month ++ '-' :: (pad2 dt.day ++ '-' ::
    (weekdayName (weekdayOf dt.year dt.month dt.day) ++ []))) = _
  rw [List.append_nil]

theorem render_ymdSpW (dt : Date) :
    renderStem (str "YYYY-MM-DD dddd") dt =
      pad4 dt.year ++ '-' :: (pad2 dt.month ++ '-' :: (pad2 dt.day ++ ' ' ::
        weekdayName (weekdayOf dt.year dt.month dt.day))) := by
  unfold renderStem
  rw [convert_ymdSpW]
  show pad4 dt.year ++ '-' :: (pad2 dt.month ++ '-' :: (pad2 dt.day ++ ' ' ::
    (weekdayName (weekdayOf dt.year dt.month dt.day) ++ []))) = _
  rw [List.append_nil]

theorem render_ymd (dt : Date) :
    renderStem (str "YYYY-MM-DD") dt =
      pad4 dt.year ++ '-' :: (pad2 dt.month ++ '-' :: pad2 dt.day) := by
  unfold renderStem
  rw [convert_ymd]
  show pad4 dt.year ++ '-' :: (pad2 dt.month ++ '-' :: (pad2 dt.day ++ [])) = _
  rw [List.append_nil]

theorem render_ymdSlash (dt : Date) :
    renderStem (str "YYYY/MM/DD") dt =
      pad4 dt.year ++ '/' :: (pad2 dt.month ++ '/' :: pad2 dt.day) := by
  unfold renderStem
  rw [convert_ymdSlash]
  show pad4 dt.year ++ '/' :: (pad2 dt.month ++ '/' :: (pad2 dt.day ++ [])) = _
  rw [List.append_nil]

theorem render_monthDY (dt : Date) :
    renderStem (str "MMMM DD, YYYY") dt =
      monthName dt.month ++ ' ' :: (pad2 dt.day ++ ',' :: ' ' :: pad4 dt.year) := by
  unfold renderStem
  rw [convert_monthDY]
  show monthName dt.month ++ ' ' :: (pad2 dt.day ++ ',' :: ' ' ::
    (pad4 dt.year ++ [])) = _
  rw [List.append_nil]

theorem render_dMonthY (dt : Date) :
    renderStem (str "DD MMMM YYYY") dt =
      pad2 dt.day ++ ' ' :: (monthName dt.month ++ ' ' :: pad4 dt.year) := by
  unfold renderStem
  rw [convert_dMonthY]
  show pad2 dt.day ++ ' ' :: (monthName dt.month ++ ' ' :: (pad4 dt.year ++ [])) = _
  rw [List.append_nil]

theorem ymd_stem_mem (y m d : Nat) (c : Char) (hc : c.isDigit = false)
    (hd : ¬ c = '-') : c ∉ pad4 y ++ '-' :: (pad2 m ++ '-' :: pad2 d) := by
  intro hmem
  simp [List.mem_append, List.mem_cons] at hmem
  rcases hmem with h | h | h | h | h
  · exact not_mem_pad4 y c hc h
  · exact hd h
  · exact not_mem_pad2 m c hc h
  · exact hd h
  · exact not_mem_pad2 d c hc h

theorem uniq_ymd (dt : Date) :
    patRegexMatches Pat.ymd (renderStem (str "YYYY-MM-DD") dt) = true ∧
    (∀ q ∈ catalog, q ≠ Pat.ymd →
      patRegexMatches q (renderStem (str "YYYY-MM-DD") dt) = false) ∧
    reAmbiguous (renderStem (str "YYYY-MM-DD") dt) = false := by
  rw [render_ymd]
  have hsd : splitC '-' (pad4 dt.year ++ '-' :: (pad2 dt.month ++ '-' :: pad2 dt.day)) =
      [pad4 dt.year, pad2 dt.month, pad2 dt.day] := by
    rw [splitC_sep_out '-' _ _ (not_mem_pad4 _ '-' (by decide)),
      splitC_sep_out '-' _ _ (not_mem_pad2 _ '-' (by decide)),
      splitC_no_sep '-' _ (not_mem_pad2 _ '-' (by decide))]
  have hss : splitC ' ' (pad4 dt.year ++ '-' :: (pad2 dt.month ++ '-' :: pad2 dt.day)) =
      [pad4 dt.year ++ '-' :: (pad2 dt.month ++ '-' :: pad2 dt.day)] :=
    splitC_no_sep ' ' _ (ymd_stem_mem _ _ _ ' ' (by decide) (by decide))
  have hsl : splitC '/' (pad4 dt.year ++ '-' :: (pad2 dt.month ++ '-' :: pad2 dt.day)) =
      [pad4 dt.year ++ '-' :: (pad2 dt.month ++ '-' :: pad2 dt.day)] :=
    splitC_no_sep '/' _ (ymd_stem_mem _ _ _ '/' (by decide) (by decide))
  refine ⟨?_, ?_, ?_⟩
  · show reYMD _ = true
    unfold reYMD
    rw [hsd]
    show (digitRun 4 4 (pad4 dt.year) && digitRun 2 2 (pad2 dt.month) &&
      digitRun 2 2 (pad2 dt.day)) = true
    rw [digitRun_pad4 _ 4 4 (by norm_num) (by norm_num),
      digitRun_pad2 _ 2 2 (by norm_num) (by norm_num),
      digitRun_pad2 _ 2 2 (by norm_num) (by norm_num)]
    rfl
  · intro q hq hqne
    simp [catalog] at hq
    rcases hq with rfl | rfl | rfl | rfl | rfl | rfl | rfl | rfl
    · show reYMDW _ = false
      unfold reYMDW
      rw [hsd]
    · show reYMDSpW _ = false
      unfold reYMDSpW
      rw [hss]
    · exact absurd rfl hqne
    · show reYMDSlash _ = false
      unfold reYMDSlash
      rw [hsl]
    · show reMonthDY _ = false
      unfold reMonthDY
      rw [hss]
    · show reDMonthY _ = false
      unfold reDMonthY
      rw [hss]
    · show reYYMMDD _ = false
      unfold reYYMMDD
      rw [hsd]
      show (digitRun 2 2 (pad4 dt.year) && digitRun 2 2 (pad2 dt.month) &&
        digitRun 2 2 (pad2 dt.day)) = false
      rw [digitRun_false_len 2 2 (pad4 dt.year)
        (Or.inr (by rw [pad4_length]; norm_num))]
      rfl
    · show reMMDDYY _ = false
      unfold reMMDDYY
      rw [hsd]
      show (digitRun 1 2 (pad4 dt.year) && digitRun 1 2 (pad2 dt.month) &&
        digitRun 2 2 (pad2 dt.day)) = false
      rw [digitRun_false_len 1 2 (pad4 dt.year)
        (Or.inr (by rw [pad4_length]; norm_num))]
      rfl
  · unfold reAmbiguous
    rw [hsd]
    show (digitRun 1 2 (pad4 dt.year) && digitRun 1 2 (pad2 dt.month) &&
      digitRun 4 4 (pad2 dt.day)) = false
    rw [digitRun_false_len 1 2 (pad4 dt.year)
      (Or.inr (by rw [pad4_length]; norm_num))]
    rfl

theorem slash_stem_mem (y m d : Nat) (c : Char) (hc : c.isDigit = false)
    (hd : ¬ c = '/') : c ∉ pad4 y ++ '/' :: (pad2 m ++ '/' :: pad2 d) := by
  intro hmem
  simp [List.mem_append, List.mem_cons] at hmem
  rcases hmem with h | h | h | h | h
  · exact not_mem_pad4 y c hc h
  · exact hd h
  · exact not_mem_pad2 m c hc h
  · exact hd h
  · exact not_mem_pad2 d c hc h

theorem uniq_ymdSlash (dt : Date) :
    patRegexMatches Pat.ymdSlash (renderStem (str "YYYY/MM/DD") dt) = true ∧
    (∀ q ∈ catalog, q ≠ Pat.ymdSlash →
      patRegexMatches q (renderStem (str "YYYY/MM/DD") dt) = false) ∧
    reAmbiguous (renderStem (str "YYYY/MM/DD") dt) = false := by
  rw [render_ymdSlash]
  have hsl : splitC '/' (pad4 dt.year ++ '/' :: (pad2 dt.month ++ '/' :: pad2 dt.day)) =
      [pad4 dt.year, pad2 dt.month, pad2 dt.day] := by
    rw [splitC_sep_out '/' _ _ (not_mem_pad4 _ '/' (by decide)),
      splitC_sep_out '/' _ _ (not_mem_pad2 _ '/' (by decide)),
      splitC_no_sep '/' _ (not_mem_pad2 _ '/' (by decide))]
  have hsd : splitC '-' (pad4 dt.year ++ '/' :: (pad2 dt.month ++ '/' :: pad2 dt.day)) =
      [pad4 dt.year ++ '/' :: (pad2 dt.month ++ '/' :: pad2 dt.day)] :=
    splitC_no_sep '-' _ (slash_stem_mem _ _ _ '-' (by decide) (by decide))
  have hss : splitC ' ' (pad4 dt.year ++ '/' :: (pad2 dt.month ++ '/' :: pad2 dt.day)) =
      [pad4 dt.year ++ '/' :: (pad2 dt.month ++ '/' :: pad2 dt.day)] :=
    splitC_no_sep ' ' _ (slash_stem_mem _ _ _ ' ' (by decide) (by decide))
  refine ⟨?_, ?_, ?_⟩
  · show reYMDSlash _ = true
    unfold reYMDSlash
    rw [hsl]
    show (digitRun 4 4 (pad4 dt.year) && digitRun 2 2 (pad2 dt.month) &&
      digitRun 2 2 (pad2 dt.day)) = true
    rw [digitRun_pad4 _ 4 4 (by norm_num) (by norm_num),
      digitRun_pad2 _ 2 2 (by norm_num) (by norm_num),
      digitRun_pad2 _ 2 2 (by norm_num) (by norm_num)]
    rfl
  · intro q hq hqne
    simp [catalog] at hq
    rcases hq with rfl | rfl | rfl | rfl | rfl | rfl | rfl | rfl
    · show reYMDW _ = false
      unfold reYMDW
      rw [hsd]
    · show reYMDSpW _ = false
      unfold reYMDSpW
      rw [hss]
    · show reYMD _ = false
      unfold reYMD
      rw [hsd]
    · exact absurd rfl hqne
    · show reMonthDY _ = false
      unfold reMonthDY
      rw [hss]
    · show reDMonthY _ = false
      unfold reDMonthY
      rw [hss]
    · show reYYMMDD _ = false
      unfold reYYMMDD
      rw [hsd]
    · show reMMDDYY _ = false
      unfold reMMDDYY
      rw [hsd]
  · unfold reAmbiguous
    rw [hsd]

theorem dashW_stem_mem (y m d : Nat) (w : Line) (c : Char) (hc : c.isDigit = false)
    (hd : ¬ c = '-') (hw : c ∉ w) :
    c ∉ pad4 y ++ '-' :: (pad2 m ++ '-' :: (pad2 d ++ '-' :: w)) := by
  intro hmem
  simp [List.mem_append, List.mem_cons] at hmem
  rcases hmem with h | h | h | h | h | h | h
  · exact not_mem_pad4 y c hc h
  · exact hd h
  · exact not_mem_pad2 m c hc h
  · exact hd h
  · exact not_mem_pad2 d c hc h
  · exact hd h
  · exact hw h

theorem uniq_ymdW (dt : Date) :
    patRegexMatches Pat.ymdDashW (renderStem (str "YYYY-MM-DD-dddd") dt) = true ∧
    (∀ q ∈ catalog, q ≠ Pat.ymdDashW →
      patRegexMatches q (renderStem (str "YYYY-MM-DD-dddd") dt) = false) ∧
    reAmbiguous (renderStem (str "YYYY-MM-DD-dddd") dt) = false := by
  rw [render_ymdW]
  have hw := weekdayNames_props _
    (weekdayName_mem _ (weekdayOf_lt dt.year dt.month dt.day))
  have hsd : splitC '-' (pad4 dt.year ++ '-' :: (pad2 dt.month ++ '-' ::
      (pad2 dt.day ++ '-' :: weekdayName (weekdayOf dt.year dt.month dt.day)))) =
      [pad4 dt.year, pad2 dt.month, pad2 dt.day,
        weekdayName (weekdayOf dt.year dt.month dt.day)] := by
    rw [splitC_sep_out '-' _ _ (not_mem_pad4 _ '-' (by decide)),
      splitC_sep_out '-' _ _ (not_mem_pad2 _ '-' (by decide)),
      splitC_sep_out '-' _ _ (not_mem_pad2 _ '-' (by decide)),
      splitC_no_sep '-' _ hw.2.1]
  have hss : splitC ' ' (pad4 dt.year ++ '-' :: (pad2 dt.month ++ '-' ::
      (pad2 dt.day ++ '-' :: weekdayName (weekdayOf dt.year dt.month dt.day)))) =
      [pad4 dt.year ++ '-' :: (pad2 dt.month ++ '-' ::
        (pad2 dt.day ++ '-' :: weekdayName (weekdayOf dt.year dt.month dt.day)))] :=
    splitC_no_sep ' ' _ (dashW_stem_mem _ _ _ _ ' ' (by decide) (by decide) hw.1)
  have hsl : splitC '/' (pad4 dt.year ++ '-' :: (pad2 dt.month ++ '-' ::
      (pad2 dt.day ++ '-' :: weekdayName (weekdayOf dt.year dt.month dt.day)))) =
      [pad4 dt.year ++ '-' :: (pad2 dt.month ++ '-' ::
        (pad2 dt.day ++ '-' :: weekdayName (weekdayOf dt.year dt.month dt.day)))] :=
    splitC_no_sep '/' _ (dashW_stem_mem _ _ _ _ '/' (by decide) (by decide) hw.2.2.1)
  refine ⟨?_, ?_, ?_⟩
  · show reYMDW _ = true
    unfold reYMDW
    rw [hsd]
    show (digitRun 4 4 (pad4 dt.year) && digitRun 2 2 (pad2 dt.month) &&
      digitRun 2 2 (pad2 dt.day) &&
      wordRun (weekdayName (weekdayOf dt.year dt.month dt.day))) = true
    rw [digitRun_pad4 _ 4 4 (by norm_num) (by norm_num),
      digitRun_pad2 _ 2 2 (by norm_num) (by norm_num),
      digitRun_pad2 _ 2 2 (by norm_num) (by norm_num), hw.2.2.2.1]
    rfl
  · intro q hq hqne
    simp [catalog] at hq
    rcases hq with rfl | rfl | rfl | rfl | rfl | rfl | rfl | rfl
    · exact absurd rfl hqne
    · show reYMDSpW _ = false
      unfold reYMDSpW
      rw [hss]
    · show reYMD _ = false
      unfold reYMD
      rw [hsd]
    · show reYMDSlash _ = false
      unfold reYMDSlash
      rw [hsl]
    · show reMonthDY _ = false
      unfold reMonthDY
      rw [hss]
    · show reDMonthY _ = false
      unfold reDMonthY
      rw [hss]
    · show reYYMMDD _ = false
      unfold reYYMMDD
      rw [hsd]
    · show reMMDDYY _ = false
      unfold reMMDDYY
      rw [hsd]
  · unfold reAmbiguous
    rw [hsd]

theorem spaceW_stem_mem (y m d : Nat) (w : Line) (c : Char) (hc : c.isDigit = false)
    (hd : ¬ c = '-') (hsp : ¬ c = ' ') (hw : c ∉ w) :
    c ∉ pad4 y ++ '-' :: (pad2 m ++ '-' :: (pad2 d ++ ' ' :: w)) := by
  intro hmem
  simp [List.mem_append, List.mem_cons] at hmem
  rcases hmem with h | h | h | h | h | h | h
  · exact not_mem_pad4 y c hc h
  · exact hd h
  · exact not_mem_pad2 m c hc h
  · exact hd h
  · exact not_mem_pad2 d c hc h
  · exact hsp h
  · exact hw h

theorem uniq_ymdSpW (dt : Date) :
    patRegexMatches Pat.ymdSpaceW (renderStem (str "YYYY-MM-DD dddd") dt) = true ∧
    (∀ q ∈ catalog, q ≠ Pat.ymdSpaceW →
      patRegexMatches q (renderStem (str "YYYY-MM-DD dddd") dt) = false) ∧
    reAmbiguous (renderStem (str "YYYY-MM-DD dddd") dt) = false := by
  rw [render_ymdSpW]
  have hw := weekdayNames_props _
    (weekdayName_mem _ (weekdayOf_lt dt.year dt.month dt.day))
  have hassoc : pad4 dt.year ++ '-' :: (pad2 dt.month ++ '-' :: (pad2 dt.day ++ ' ' ::
      weekdayName (weekdayOf dt.year dt.month dt.day))) =
      (pad4 dt.year ++ '-' :: (pad2 dt.month ++ '-' :: pad2 dt.day)) ++ ' ' ::
        weekdayName (weekdayOf dt.year dt.month dt.day) := by
    simp
  have hss : splitC ' ' (pad4 dt.year ++ '-' :: (pad2 dt.month ++ '-' ::
      (pad2 dt.day ++ ' ' :: weekdayName (weekdayOf dt.year dt.month dt.day)))) =
      [pad4 dt.year ++ '-' :: (pad2 dt.month ++ '-' :: pad2 dt.day),
        weekdayName (weekdayOf dt.year dt.month dt.day)] := by
    rw [hassoc, splitC_sep_out ' ' _ _ (ymd_stem_mem _ _ _ ' ' (by decide) (by decide)),
      splitC_no_sep ' ' _ hw.1]
  have hsd : splitC '-' (pad4 dt.year ++ '-' :: (pad2 dt.month ++ '-' ::
      (pad2 dt.day ++ ' ' :: weekdayName (weekdayOf dt.year dt.month dt.day)))) =
      [pad4 dt.year, pad2 dt.month,
        pad2 dt.day ++ ' ' :: weekdayName (weekdayOf dt.year dt.month dt.day)] := by
    rw [splitC_sep_out '-' _ _ (not_mem_pad4 _ '-' (by decide)),
      splitC_sep_out '-' _ _ (not_mem_pad2 _ '-' (by decide))]
    rw [splitC_no_sep '-' _ ?hnm]
    case hnm =>
      intro hmem
      rcases List.mem_append.1 hmem with h | h
      · exact not_mem_pad2 dt.day '-' (by decide) h
      · rcases List.mem_cons.1 h with h2 | h2
        · exact absurd h2 (by decide)
        · exact hw.2.1 h2
  have hsl : splitC '/' (pad4 dt.year ++ '-' :: (pad2 dt.month ++ '-' ::
      (pad2 dt.day ++ ' ' :: weekdayName (weekdayOf dt.year dt.month dt.day)))) =
      [pad4 dt.year ++ '-' :: (pad2 dt.month ++ '-' ::
        (pad2 dt.day ++ ' ' :: weekdayName (weekdayOf dt.year dt.month dt.day)))] :=
    splitC_no_sep '/' _
      (spaceW_stem_mem _ _ _ _ '/' (by decide) (by decide) (by decide) hw.2.2.1)
  have hlen3 : 2 < (pad2 dt.day ++ ' ' ::
      weekdayName (weekdayOf dt.year dt.month dt.day)).length := by
    simp [pad2]
  refine ⟨?_, ?_, ?_⟩
  · show reYMDSpW _ = true
    unfold reYMDSpW
    rw [hss]
    show (reYMD (pad4 dt.year ++ '-' :: (pad2 dt.month ++ '-' :: pad2 dt.day)) &&
      wordRun (weekdayName (weekdayOf dt.year dt.month dt.day))) = true
    have hymd : reYMD (pad4 dt.year ++ '-' :: (pad2 dt.month ++ '-' :: pad2 dt.day)) =
        true := by
      unfold reYMD
      rw [splitC_sep_out '-' _ _ (not_mem_pad4 _ '-' (by decide)),
        splitC_sep_out '-' _ _ (not_mem_pad2 _ '-' (by decide)),
        splitC_no_sep '-' _ (not_mem_pad2 _ '-' (by decide))]
      show (digitRun 4 4 (pad4 dt.year) && digitRun 2 2 (pad2 dt.month) &&
        digitRun 2 2 (pad2 dt.day)) = true
      rw [digitRun_pad4 _ 4 4 (by norm_num) (by norm_num),
        digitRun_pad2 _ 2 2 (by norm_num) (by norm_num),
        digitRun_pad2 _ 2 2 (by norm_num) (by norm_num)]
      rfl
    rw [hymd, hw.2.2.2.1]
    rfl
  · intro q hq hqne
    simp [catalog] at hq
    rcases hq with rfl | rfl | rfl | rfl | rfl | rfl | rfl | rfl
    · show reYMDW _ = false
      unfold reYMDW
      rw [hsd]
    · exact absurd rfl hqne
    · show reYMD _ = false
      unfold reYMD
      rw [hsd]
      show (digitRun 4 4 (pad4 dt.year) && digitRun 2 2 (pad2 dt.month) &&
        digitRun 2 2 (pad2 dt.day ++ ' ' ::
          weekdayName (weekdayOf dt.year dt.month dt.day))) = false
      rw [digitRun_false_len 2 2 _ (Or.inr hlen3)]
      simp
    · show reYMDSlash _ = false
      unfold reYMDSlash
      rw [hsl]
    · show reMonthDY _ = false
      unfold reMonthDY
      rw [hss]
    · show reDMonthY _ = false
      unfold reDMonthY
      rw [hss]
    · show reYYMMDD _ = false
      unfold reYYMMDD
      rw [hsd]
      show (digitRun 2 2 (pad4 dt.year) && digitRun 2 2 (pad2 dt.month) &&
        digitRun 2 2 (pad2 dt.day ++ ' ' ::
          weekdayName (weekdayOf dt.year dt.month dt.day))) = false
      rw [digitRun_false_len 2 2 (pad4 dt.year)
        (Or.inr (by rw [pad4_length]; norm_num))]
      rfl
    · show reMMDDYY _ = false
      unfold reMMDDYY
      rw [hsd]
      show (digitRun 1 2 (pad4 dt.year) && digitRun 1 2 (pad2 dt.month) &&
        digitRun 2 2 (pad2 dt.day ++ ' ' ::
          weekdayName (weekdayOf dt.year dt.month dt.day))) = false
      rw [digitRun_false_len 1 2 (pad4 dt.year)
        (Or.inr (by rw [pad4_length]; norm_num))]
      rfl
  · unfold reAmbiguous
    rw [hsd]
    show (digitRun 1 2 (pad4 dt.year) && digitRun 1 2 (pad2 dt.month) &&
      digitRun 4 4 (pad2 dt.day ++ ' ' ::
        weekdayName (weekdayOf dt.year dt.month dt.day))) = false
    rw [digitRun_false_len 1 2 (pad4 dt.year)
      (Or.inr (by rw [pad4_length]; norm_num))]
    rfl

theorem monthDY_stem_mem (mn : Line) (d y : Nat) (c : Char) (hmn : c ∉ mn)
    (hc : c.isDigit = false) (h1 : ¬ c = ' ') (h2 : ¬ c = ',') :
    c ∉ mn ++ ' ' :: (pad2 d ++ ',' :: ' ' :: pad4 y) := by
  intro hmem
  rcases List.mem_append.1 hmem with h | h
  · exact hmn h
  · rcases List.mem_cons.1 h with h3 | h3
    · exact h1 h3
    · rcases List.mem_append.1 h3 with h4 | h4
      · exact not_mem_pad2 d c hc h4
      · rcases List.mem_cons.1 h4 with h5 | h5
        · exact h2 h5
        · rcases List.mem_cons.1 h5 with h6 | h6
          · exact h1 h6
          · exact not_mem_pad4 y c hc h6

theorem uniq_monthDY (dt : Date) (hdt : dt.Valid) :
    patRegexMatches Pat.monthDY (renderStem (str "MMMM DD, YYYY") dt) = true ∧
    (∀ q ∈ catalog, q ≠ Pat.monthDY →
      patRegexMatches q (renderStem (str "MMMM DD, YYYY") dt) = false) ∧
    reAmbiguous (renderStem (str "MMMM DD, YYYY") dt) = false := by
  rw [render_monthDY]
  have hm := monthNames_props _ (monthName_mem dt.month hdt.2.2.1 hdt.2.2.2.1)
  have hassoc : pad2 dt.day ++ ',' :: ' ' :: pad4 dt.year =
      (pad2 dt.day ++ [',']) ++ ' ' :: pad4 dt.year := by
    simp
  have hnsp : ' ' ∉ pad2 dt.day ++ [','] := by
    intro hmem
    rcases List.mem_append.1 hmem with h | h
    · exact not_mem_pad2 dt.day ' ' (by decide) h
    · rcases List.mem_cons.1 h with h2 | h2
      · exact absurd h2 (by decide)
      · exact absurd h2 (List.not_mem_nil ' ')
  have hss : splitC ' ' (monthName dt.month ++ ' ' ::
      (pad2 dt.day ++ ',' :: ' ' :: pad4 dt.year)) =
      [monthName dt.month, pad2 dt.day ++ [','], pad4 dt.year] := by
    rw [splitC_sep_out ' ' _ _ hm.1, hassoc,
      splitC_sep_out ' ' _ _ hnsp,
      splitC_no_sep ' ' _ (not_mem_pad4 _ ' ' (by decide))]
  have hsd : splitC '-' (monthName dt.month ++ ' ' ::
      (pad2 dt.day ++ ',' :: ' ' :: pad4 dt.year)) =
      [monthName dt.month ++ ' ' :: (pad2 dt.day ++ ',' :: ' ' :: pad4 dt.year)] :=
    splitC_no_sep '-' _
      (monthDY_stem_mem _ _ _ '-' hm.2.1 (by decide) (by decide) (by decide))
  have hsl : splitC '/' (monthName dt.month ++ ' ' ::
      (pad2 dt.day ++ ',' :: ' ' :: pad4 dt.year)) =
      [monthName dt.month ++ ' ' :: (pad2 dt.day ++ ',' :: ' ' :: pad4 dt.year)] :=
    splitC_no_sep '/' _
      (monthDY_stem_mem _ _ _ '/' hm.2.2.1 (by decide) (by decide) (by decide))
  have hgl : (pad2 dt.day ++ [',']).getLast? = some ',' := by
    rw [List.getLast?_append_of_ne_nil _ (by simp)]
    rfl
  refine ⟨?_, ?_, ?_⟩
  · show reMonthDY _ = true
    unfold reMonthDY
    rw [hss]
    show (monthWordRun (monthName dt.month) &&
      decide ((pad2 dt.day ++ [',']).getLast? = some ',') &&
      digitRun 1 2 (pad2 dt.day ++ [',']).dropLast &&
      digitRun 4 4 (pad4 dt.year)) = true
    rw [hm.2.2.2.1, decide_eq_true hgl, List.dropLast_concat,
      digitRun_pad2 _ 1 2 (by norm_num) (by norm_num),
      digitRun_pad4 _ 4 4 (by norm_num) (by norm_num)]
    rfl
  · intro q hq hqne
    simp [catalog] at hq
    rcases hq with rfl | rfl | rfl | rfl | rfl | rfl | rfl | rfl
    · show reYMDW _ = false
      unfold reYMDW
      rw [hsd]
    · show reYMDSpW _ = false
      unfold reYMDSpW
      rw [hss]
    · show reYMD _ = false
      unfold reYMD
      rw [hsd]
    · show reYMDSlash _ = false
      unfold reYMDSlash
      rw [hsl]
    · exact absurd rfl hqne
    · show reDMonthY _ = false
      unfold reDMonthY
      rw [hss]
      show (digitRun 1 2 (monthName dt.month) &&
        monthWordRun (pad2 dt.day ++ [',']) && digitRun 4 4 (pad4 dt.year)) = false
      rw [digitRun_false_digits 1 2 _ hm.2.2.2.2.1]
      rfl
    · show reYYMMDD _ = false
      unfold reYYMMDD
      rw [hsd]
    · show reMMDDYY _ = false
      unfold reMMDDYY
      rw [hsd]
  · unfold reAmbiguous
    rw [hsd]

theorem dMonthY_stem_mem (mn : Line) (d y : Nat) (c : Char) (hmn : c ∉ mn)
    (hc : c.isDigit = false) (h1 : ¬ c = ' ') :
    c ∉ pad2 d ++ ' ' :: (mn ++ ' ' :: pad4 y) := by
  intro hmem
  rcases List.mem_append.1 hmem with h | h
  · exact not_mem_pad2 d c hc h
  · rcases List.mem_cons.1 h with h2 | h2
    · exact h1 h2
    · rcases List.mem_append.1 h2 with h3 | h3
      · exact hmn h3
      · rcases List.mem_cons.1 h3 with h4 | h4
        · exact h1 h4
        · exact not_mem_pad4 y c hc h4

theorem uniq_dMonthY (dt : Date) (hdt : dt.Valid) :
    patRegexMatches Pat.dMonthY (renderStem (str "DD MMMM YYYY") dt) = true ∧
    (∀ q ∈ catalog, q ≠ Pat.dMonthY →
      patRegexMatches q (renderStem (str "DD MMMM YYYY") dt) = false) ∧
    reAmbiguous (renderStem (str "DD MMMM YYYY") dt) = false := by
  rw [render_dMonthY]
  have hm := monthNames_props _ (monthName_mem dt.month hdt.2.2.1 hdt.2.2.2.1)
  have hss : splitC ' ' (pad2 dt.day ++ ' ' :: (monthName dt.month ++ ' ' ::
      pad4 dt.year)) = [pad2 dt.day, monthName dt.month, pad4 dt.year] := by
    rw [splitC_sep_out ' ' _ _ (not_mem_pad2 _ ' ' (by decide)),
      splitC_sep_out ' ' _ _ hm.1,
      splitC_no_sep ' ' _ (not_mem_pad4 _ ' ' (by decide))]
  have hsd : splitC '-' (pad2 dt.day ++ ' ' :: (monthName dt.month ++ ' ' ::
      pad4 dt.year)) =
      [pad2 dt.day ++ ' ' :: (monthName dt.month ++ ' ' :: pad4 dt.year)] :=
    splitC_no_sep '-' _
      (dMonthY_stem_mem _ _ _ '-' hm.2.1 (by decide) (by decide))
  have hsl : splitC '/' (pad2 dt.day ++ ' ' :: (monthName dt.month ++ ' ' ::
      pad4 dt.year)) =
      [pad2 dt.day ++ ' ' :: (monthName dt.month ++ ' ' :: pad4 dt.year)] :=
    splitC_no_sep '/' _
      (dMonthY_stem_mem _ _ _ '/' hm.2.2.1 (by decide) (by decide))
  refine ⟨?_, ?_, ?_⟩
  · show reDMonthY _ = true
    unfold reDMonthY
    rw [hss]
    show (digitRun 1 2 (pad2 dt.day) && monthWordRun (monthName dt.month) &&
      digitRun 4 4 (pad4 dt.year)) = true
    rw [digitRun_pad2 _ 1 2 (by norm_num) (by norm_num), hm.2.2.2.1,
      digitRun_pad4 _ 4 4 (by norm_num) (by norm_num)]
    rfl
  · intro q hq hqne
    simp [catalog] at hq
    rcases hq with rfl | rfl | rfl | rfl | rfl | rfl | rfl | rfl
    · show reYMDW _ = false
      unfold reYMDW
      rw [hsd]
    · show reYMDSpW _ = false
      unfold reYMDSpW
      rw [hss]
    · show reYMD _ = false
      unfold reYMD
      rw [hsd]
    · show reYMDSlash _ = false
      unfold reYMDSlash
      rw [hsl]
    · show reMonthDY _ = false
      unfold reMonthDY
      rw [hss]
      show (monthWordRun (pad2 dt.day) &&
        decide ((monthName dt.month).getLast? = some ',') &&
        digitRun 1 2 (monthName dt.month).dropLast &&
        digitRun 4 4 (pad4 dt.year)) = false
      rw [hm.2.2.2.2.2.1]
      simp
    · exact absurd rfl hqne
    · show reYYMMDD _ = false
      unfold reYYMMDD
      rw [hsd]
    · show reMMDDYY _ = false
      unfold reMMDDYY
      rw [hsd]
  · unfold reAmbiguous
    rw [hsd]

/-! ## Claim C6: assembling the round trip -/

theorem find?_eq_of_unique (order : List Pat) (pred : Pat → Bool) (P : Pat)
    (hmem : P ∈ order) (hpred : pred P = true)
    (huniq : ∀ q ∈ order, pred q = true → q = P) :
    order.find? pred = some P := by
  induction order with
  | nil => exact absurd hmem (List.not_mem_nil P)
  | cons a rest ih =>
    by_cases ha : pred a = true
    · have haP : a = P := huniq a (List.mem_cons_self a rest) ha
      rw [List.find?]
      rw [ha]
      rw [haP]
    · have ha' : pred a = false := by simpa using ha
      rw [List.find?]
      rw [ha']
      have hPne : P ≠ a := fun h => ha (h ▸ hpred)
      have hPm : P ∈ rest := by
        rcases List.mem_cons.1 hmem with h | h
        · exact absurd h hPne
        · exact h
      exact ih hPm (fun q hq hqp => huniq q (List.mem_cons_of_mem a hq) hqp)

theorem firstPatMatch_unique (order : List Pat) (s : Line) (P : Pat)
    (horder : List.Perm order catalog)
    (hP : P ∈ catalog)
    (h1 : patRegexMatches P s = true)
    (h2 : ∀ q ∈ catalog, q ≠ P → patRegexMatches q s = false) :
    firstPatMatch order s = some P := by
  apply find?_eq_of_unique order _ P (horder.mem_iff.2 hP) h1
  intro q hq hqp
  by_contra hne
  rw [h2 q (horder.mem_iff.1 hq) hne] at hqp
  exact absurd hqp (by simp)

theorem totalCount_singleton (order : List Pat) (s : Line) (P : Pat)
    (h1 : firstPatMatch order s = some P) (h2 : reAmbiguous s = false) (f : Line) :
    totalCount order [s] f = if f = patFormat P then 1 else 0 := by
  have hamb : ambiguousFiles [s] = [] := by
    unfold ambiguousFiles
    rw [List.filter_eq_nil_iff]
    intro a ha
    rcases List.mem_cons.1 ha with rfl | ha2
    · rw [h2]
      simp
    · exact absurd ha2 (List.not_mem_nil a)
  unfold totalCount matchCount
  rw [hamb]
  simp only [List.countP_cons, List.countP_nil, h1]
  by_cases hf : f = patFormat P
  · subst hf
    simp
  · simp [hf]
    intro hcon
    exact absurd hcon.symm hf

theorem validTally_single (order : List Pat) (s : Line) (P : Pat)
    (h1 : firstPatMatch order s = some P) (h2 : reAmbiguous s = false) :
    validTally order [s] [patFormat P] := by
  refine ⟨by simp, fun f => ?_⟩
  rw [totalCount_singleton order s P h1 h2 f]
  by_cases hf : f = patFormat P
  · subst hf
    simp
  · simp [hf]

theorem strict_max_single (order : List Pat) (s : Line) (P : Pat)
    (h1 : firstPatMatch order s = some P) (h2 : reAmbiguous s = false) :
    ∃ f, 0 < totalCount order [s] f ∧
      ∀ g, g ≠ f → totalCount order [s] g < totalCount order [s] f := by
  refine ⟨patFormat P, ?_, ?_⟩
  · rw [totalCount_singleton order s P h1 h2]
    simp
  · intro g hg
    rw [totalCount_singleton order s P h1 h2 g,
      totalCount_singleton order s P h1 h2 (patFormat P)]
    simp [hg]

theorem bestFormat_stay (order : List Pat) (stems : List Line) :
    ∀ (tally : List Line) (acc : Line × Nat),
      (∀ g ∈ tally, totalCount order stems g ≤ acc.2) →
      tally.foldl
        (fun acc f =>
          if totalCount order stems f > acc.2 then (f, totalCount order stems f) else acc)
        acc = acc := by
  intro tally
  induction tally with
  | nil => intro acc h; rfl
  | cons g rest ih =>
    intro acc h
    rw [List.foldl_cons,
      if_neg (by
        have := h g (List.mem_cons_self g rest)
        omega)]
    exact ih acc (fun g2 hg2 => h g2 (List.mem_cons_of_mem g hg2))

theorem bestFormat_loop (order : List Pat) (stems : List Line) (f : Line) :
    ∀ (tally : List Line) (acc : Line × Nat),
      f ∈ tally → acc.2 < totalCount order stems f →
      (∀ g ∈ tally, g = f ∨ totalCount order stems g < totalCount order stems f) →
      (tally.foldl
        (fun acc g =>
          if totalCount order stems g > acc.2 then (g, totalCount order stems g) else acc)
        acc).1 = f := by
  intro tally
  induction tally with
  | nil => intro acc hmem; exact absurd hmem (List.not_mem_nil f)
  | cons g rest ih =>
    intro acc hmem hacc hall
    rw [List.foldl_cons]
    by_cases hgf : g = f
    · subst hgf
      rw [if_pos (by omega)]
      rw [bestFormat_stay order stems rest (g, totalCount order stems g) ?hrest]
      case hrest =>
        intro g2 hg2
        rcases hall g2 (List.mem_cons_of_mem g hg2) with rfl | hlt
        · exact le_refl _
        · exact le_of_lt hlt
    · have hfm : f ∈ rest := by
        rcases List.mem_cons.1 hmem with h | h
        · exact absurd h.symm hgf
        · exact h
      have hrest : ∀ g2 ∈ rest, g2 = f ∨
          totalCount order stems g2 < totalCount order stems f :=
        fun g2 hg2 => hall g2 (List.mem_cons_of_mem g hg2)
      by_cases himp : totalCount order stems g > acc.2
      · rw [if_pos himp]
        apply ih (g, totalCount order stems g) hfm ?hlt hrest
        case hlt =>
          rcases hall g (List.mem_cons_self g rest) with rfl | hlt
          · exact absurd rfl hgf
          · exact hlt
      · rw [if_neg himp]
        exact ih acc hfm hacc hrest

theorem bestFormat_eq (order : List Pat) (stems : List Line) (tally : List Line)
    (f : Line) (hmem : f ∈ tally) (hpos : 0 < totalCount order stems f)
    (hall : ∀ g ∈ tally, g = f ∨ totalCount order stems g < totalCount order stems f) :
    bestFormat order stems tally = f := by
  unfold bestFormat
  exact bestFormat_loop order stems f tally (str "YYYY-MM-DD", 0) hmem hpos hall

/-- The uniqueness bundle for every non-ambiguous pattern: its rendered
stem matches its own regex, no other catalog regex, and not the
ambiguous shape. -/
theorem uniq_nonAmb (P : Pat) (hP : P ∈ nonAmbiguousPats) (dt : Date)
    (hdt : dt.Valid) :
    patRegexMatches P (renderStem (patFormat P) dt) = true ∧
    (∀ q ∈ catalog, q ≠ P →
      patRegexMatches q (renderStem (patFormat P) dt) = false) ∧
    reAmbiguous (renderStem (patFormat P) dt) = false := by
  simp [nonAmbiguousPats] at hP
  rcases hP with rfl | rfl | rfl | rfl | rfl | rfl
  · exact uniq_ymdW dt
  · exact uniq_ymdSpW dt
  · exact uniq_ymd dt
  · exact uniq_ymdSlash dt
  · exact uniq_monthDY dt hdt
  · exact uniq_dMonthY dt hdt

/-- C6: for every non-ambiguous pattern P in the fixed catalog and every
valid calendar date, running inference on the one-element sample
containing the stem rendered for P returns P — for ANY map iteration
order (any permutation of the catalog) and any legitimate tally order. -/
theorem C6_roundtrip (P : Pat) (hP : P ∈ nonAmbiguousPats) (dt : Date)
    (hdt : dt.Valid) (order : List Pat) (horder : List.Perm order catalog)
    (tally : List Line)
    (htally : validTally order [renderStem (patFormat P) dt] tally) :
    detectDateFormatFromFiles order tally [renderStem (patFormat P) dt] =
      patFormat P := by
  have huniq := uniq_nonAmb P hP dt hdt
  have hPcat : P ∈ catalog := by
    simp [nonAmbiguousPats] at hP
    rcases hP with rfl | rfl | rfl | rfl | rfl | rfl <;> decide
  have hfirst : firstPatMatch order (renderStem (patFormat P) dt) = some P :=
    firstPatMatch_unique order _ P horder hPcat huniq.1 huniq.2.1
  have hcount := totalCount_singleton order _ P hfirst huniq.2.2
  unfold detectDateFormatFromFiles
  apply bestFormat_eq order _ tally (patFormat P)
  · apply (htally.2 _).2
    rw [hcount]
    simp
  · rw [hcount]
    simp
  · intro g hg
    have hgpos := (htally.2 g).1 hg
    by_cases hgf : g = patFormat P
    · exact Or.inl hgf
    · rw [hcount g, if_neg hgf] at hgpos
      exact absurd hgpos (by omega)

theorem C6_witness :
    detectDateFormatFromFiles catalog [patFormat Pat.ymd]
      [renderStem (patFormat Pat.ymd) ⟨2025, 7, 19⟩] = patFormat Pat.ymd :=
  C6_roundtrip Pat.ymd (by decide) ⟨2025, 7, 19⟩ (by decide) catalog
    (List.Perm.refl catalog) [patFormat Pat.ymd]
    (validTally_single catalog _ Pat.ymd (by decide) (by decide))

/-! ## Claim C9: dependence on map iteration order -/

theorem length_le_one_unique (l : List Pat) (h : l.length ≤ 1) (p q : Pat)
    (hp : p ∈ l) (hq : q ∈ l) : p = q := by
  match l with
  | [] => exact absurd hp (List.not_mem_nil p)
  | [a] =>
    have h1 : p = a := by simpa using hp
    have h2 : q = a := by simpa using hq
    rw [h1, h2]
  | a :: b :: rest =>
    simp at h

theorem firstPatMatch_order_indep (s : Line) (o1 o2 : List Pat)
    (h1 : List.Perm o1 catalog) (h2 : List.Perm o2 catalog)
    (huniq : (catalog.filter (fun p => patRegexMatches p s)).length ≤ 1) :
    firstPatMatch o1 s = firstPatMatch o2 s := by
  by_cases hex : ∃ p ∈ catalog, patRegexMatches p s = true
  · obtain ⟨p, hpc, hpp⟩ := hex
    have hu : ∀ q ∈ catalog, patRegexMatches q s = true → q = p := by
      intro q hq hqp
      exact length_le_one_unique _ huniq q p
        (List.mem_filter.2 ⟨hq, hqp⟩) (List.mem_filter.2 ⟨hpc, hpp⟩)
    have e1 : firstPatMatch o1 s = some p :=
      find?_eq_of_unique o1 _ p (h1.mem_iff.2 hpc) hpp
        (fun q hq hqp => hu q (h1.mem_iff.1 hq) hqp)
    have e2 : firstPatMatch o2 s = some p :=
      find?_eq_of_unique o2 _ p (h2.mem_iff.2 hpc) hpp
        (fun q hq hqp => hu q (h2.mem_iff.1 hq) hqp)
    rw [e1, e2]
  · push_neg at hex
    have e1 : firstPatMatch o1 s = none := by
      unfold firstPatMatch
      rw [List.find?_eq_none]
      intro p hp
      exact hex p (h1.mem_iff.1 hp)
    have e2 : firstPatMatch o2 s = none := by
      unfold firstPatMatch
      rw [List.find?_eq_none]
      intro p hp
      exact hex p (h2.mem_iff.1 hp)
    rw [e1, e2]

theorem totalCount_order_indep (stems : List Line) (o1 o2 : List Pat)
    (h1 : List.Perm o1 catalog) (h2 : List.Perm o2 catalog)
    (huniq : ∀ s ∈ stems,
      (catalog.filter (fun p => patRegexMatches p s)).length ≤ 1)
    (f : Line) : totalCount o1 stems f = totalCount o2 stems f := by
  unfold totalCount
  have hmc : matchCount o1 stems f = matchCount o2 stems f := by
    unfold matchCount
    apply List.countP_congr
    intro s hs
    rw [firstPatMatch_order_indep s o1 o2 h1 h2 (huniq s hs)]
  rw [hmc]

/-- C9 (amended): the inference result does not depend on the map
iteration orders PROVIDED no stem is matched by two catalog regexes and
the final counts have a unique strict maximum; without those provisos
(see the counterexample) the result genuinely depends on Go's randomized
map order, so two runs need not agree. -/
theorem C9_order_independent (stems : List Line) (o1 o2 : List Pat)
    (t1 t2 : List Line)
    (h1 : List.Perm o1 catalog) (h2 : List.Perm o2 catalog)
    (ht1 : validTally o1 stems t1) (ht2 : validTally o2 stems t2)
    (huniq : ∀ s ∈ stems,
      (catalog.filter (fun p => patRegexMatches p s)).length ≤ 1)
    (hmax : ∃ f, 0 < totalCount o1 stems f ∧
      ∀ g, g ≠ f → totalCount o1 stems g < totalCount o1 stems f) :
    detectDateFormatFromFiles o1 t1 stems = detectDateFormatFromFiles o2 t2 stems := by
  obtain ⟨f, hpos, hstrict⟩ := hmax
  have heq : ∀ g, totalCount o1 stems g = totalCount o2 stems g :=
    totalCount_order_indep stems o1 o2 h1 h2 huniq
  unfold detectDateFormatFromFiles
  have b1 : bestFormat o1 stems t1 = f := by
    apply bestFormat_eq o1 stems t1 f ((ht1.2 f).2 hpos) hpos
    intro g hg
    by_cases hgf : g = f
    · exact Or.inl hgf
    · exact Or.inr (hstrict g hgf)
  have b2 : bestFormat o2 stems t2 = f := by
    apply bestFormat_eq o2 stems t2 f ((ht2.2 f).2 (by rw [← heq f]; exact hpos))
      (by rw [← heq f]; exact hpos)
    intro g hg
    by_cases hgf : g = f
    · exact Or.inl hgf
    · refine Or.inr ?_
      rw [← heq g, ← heq f]
      exact hstrict g hgf
  rw [b1, b2]

theorem C9_witness :
    detectDateFormatFromFiles catalog [patFormat Pat.ymd] [str "2025-07-19"] =
      detectDateFormatFromFiles catalog.reverse [patFormat Pat.ymd]
        [str "2025-07-19"] :=
  C9_order_independent [str "2025-07-19"] catalog catalog.reverse
    [patFormat Pat.ymd] [patFormat Pat.ymd]
    (List.Perm.refl catalog) (List.reverse_perm catalog)
    (validTally_single catalog _ Pat.ymd (by decide) (by decide))
    (validTally_single catalog.reverse _ Pat.ymd (by decide) (by decide))
    (by decide)
    (strict_max_single catalog _ Pat.ymd (by decide) (by decide))

/-- C9 counterexample: the stem "25-07-19" matches both the YY-MM-DD and
the MM-DD-YY regexes, so which one wins depends on the order in which
the Go map's patterns are visited: with the source-order catalog the
inference returns YY-MM-DD, with another legitimate visit order it
returns MM-DD-YY — both runs use legitimate tallies for their orders, so
inference is NOT deterministic across runs. -/
theorem C9_counterexample :
    List.Perm
      ([Pat.mmddyy, Pat.ymdDashW, Pat.ymdSpaceW, Pat.ymd, Pat.ymdSlash,
        Pat.monthDY, Pat.dMonthY, Pat.yymmdd]) catalog ∧
    validTally catalog [str "25-07-19"] [patFormat Pat.yymmdd] ∧
    validTally
      [Pat.mmddyy, Pat.ymdDashW, Pat.ymdSpaceW, Pat.ymd, Pat.ymdSlash,
        Pat.monthDY, Pat.dMonthY, Pat.yymmdd]
      [str "25-07-19"] [patFormat Pat.mmddyy] ∧
    detectDateFormatFromFiles catalog [patFormat Pat.yymmdd] [str "25-07-19"] ≠
      detectDateFormatFromFiles
        [Pat.mmddyy, Pat.ymdDashW, Pat.ymdSpaceW, Pat.ymd, Pat.ymdSlash,
          Pat.monthDY, Pat.dMonthY, Pat.yymmdd]
        [patFormat Pat.mmddyy] [str "25-07-19"] :=
  ⟨by decide,
    validTally_single catalog _ Pat.yymmdd (by decide) (by decide),
    validTally_single _ _ Pat.mmddyy (by decide) (by decide),
    by decide⟩
